import Mathlib

/-!
Verification development for the FPL Asset Value Model repository.

The Python sources under `src/` are shallowly embedded below:
* `src/src/fdr_value_model.py`  — `FDRValueModel` (fixture-difficulty scores),
* `src/src/clean_sheet_points_model.py` — `CleanSheetPointsModel`,
* `src/src/asset_value_model.py` — `AssetValueModel` (goalkeeper pipeline and
  the inline defensive-contribution terms of the defender/midfielder branches),
* `src/src/system.py` — the chip-gameweek validation predicate.

Numbers are modelled exactly: dataframe cell data as rationals, computed
quantities as real numbers.  The places where numpy produces IEEE special
values (division by a zero standard deviation) are modelled by the explicit
type `NpFloat` with `nan` / `pinf` / `ninf` constructors; Python exceptions
(`ValueError` from `math.log`, `IndexError`, `KeyError`, sklearn's
`NotFittedError`) are modelled with `Except PyErr`.  Gameweek numbers are
naturals and are assumed `≥ 1` throughout (the program prompts for a GW
number, 1-based).
-/

namespace FPL

/-- Python exception kinds raised by the embedded code paths. -/
inductive PyErr where
  | indexError : PyErr
  | domainError : PyErr
  | keyError : PyErr
  | notFittedError : PyErr
deriving DecidableEq, Repr

/-! ### Rounding to two decimals

`pandas.DataFrame.round(2)` delegates to `numpy.round`, which rounds half to
even.  We model ideal round-half-to-even at two decimal places. -/

/-- Round half to even to the nearest integer (numpy's rounding rule). -/
def roundHalfEvenQ (x : ℚ) : ℤ :=
  if Int.fract x = 1/2 then (if Even ⌊x⌋ then ⌊x⌋ else ⌊x⌋ + 1) else round x

/-- Round a rational to two decimal places, half to even (numpy / pandas
`round(2)` on exact data). -/
def round2Q (x : ℚ) : ℚ := (roundHalfEvenQ (100 * x) : ℚ) / 100

/-- Round half to even to the nearest integer, on real numbers. -/
noncomputable def roundHalfEvenR (x : ℝ) : ℤ :=
  if Int.fract x = 1/2 then (if Even ⌊x⌋ then ⌊x⌋ else ⌊x⌋ + 1) else round x

/-- Round a real to two decimal places, half to even. -/
noncomputable def round2R (x : ℝ) : ℝ := (roundHalfEvenR (100 * x) : ℝ) / 100

/-! ### Numpy float results with IEEE special values -/

/-- Result of a numpy floating-point computation: a finite value (modelled
exactly as a real number), an infinity, or NaN. -/
inductive NpFloat where
  | nan : NpFloat
  | pinf : NpFloat
  | ninf : NpFloat
  | fin : ℝ → NpFloat

/-- IEEE division of two finite values, as numpy performs it on arrays:
division by zero yields a signed infinity, `0/0` yields NaN. -/
noncomputable def npDiv (a b : ℝ) : NpFloat :=
  if b = 0 then (if a = 0 then .nan else if 0 < a then .pinf else .ninf)
  else .fin (a / b)

/-- Multiplication of a numpy value by a finite constant (IEEE rules:
`c * ±inf` keeps or flips the sign, `0 * ±inf = NaN`, NaN propagates). -/
noncomputable def npMulR (c : ℝ) : NpFloat → NpFloat
  | .nan => .nan
  | .pinf => if 0 < c then .pinf else if c < 0 then .ninf else .nan
  | .ninf => if 0 < c then .ninf else if c < 0 then .pinf else .nan
  | .fin x => .fin (c * x)

/-- Addition of a finite constant to a numpy value (IEEE rules). -/
def npAddR (c : ℝ) : NpFloat → NpFloat
  | .nan => .nan
  | .pinf => .pinf
  | .ninf => .ninf
  | .fin x => .fin (c + x)

/-- Division of a numpy value by a finite constant (IEEE rules; a real
divisor `0` is IEEE `+0`, so `±inf / 0 = ±inf`). -/
noncomputable def npDivR (v : NpFloat) (b : ℝ) : NpFloat :=
  match v with
  | .nan => .nan
  | .pinf => if b < 0 then .ninf else .pinf
  | .ninf => if b < 0 then .pinf else .ninf
  | .fin a => npDiv a b

/-- Rounding a numpy value to two decimals (NaN and infinities unchanged). -/
noncomputable def round2Np : NpFloat → NpFloat
  | .nan => .nan
  | .pinf => .pinf
  | .ninf => .ninf
  | .fin x => .fin (round2R x)

/-! ### Normalisation utilities (`FDRValueModel` static methods) -/

/-- Arithmetic mean of a list of reals (`np.mean`). -/
noncomputable def npMean (xs : List ℝ) : ℝ := xs.sum / xs.length

/-- Population standard deviation of a list of reals (`np.std`, `ddof = 0`). -/
noncomputable def npStd (xs : List ℝ) : ℝ :=
  Real.sqrt ((xs.map (fun x => (x - npMean xs) ^ 2)).sum / xs.length)

/-- Z-score normalisation, `FDRValueModel.zscore_normalisation`:
`(array - mu) / sigma` elementwise.  When `sigma = 0` numpy produces IEEE
special values, captured by `npDiv`. -/
noncomputable def zscore_normalisation (xs : List ℝ) : List NpFloat :=
  xs.map (fun x => npDiv (x - npMean xs) (npStd xs))

/-! ### FDR value model state -/

/-- One row of the fixture dataframe: the team name, the ordered per-gameweek
difficulty ratings (the `gw<N>` columns, 1-based), and the cell of the
derived "FDR value" column (meaningful only once `hasFdrCol` is set on the
enclosing state). -/
structure FdrRow where
  team : String
  ratings : List ℚ
  fdrVal : NpFloat

/-- The mutable dataframe held by `FDRValueModel`: its rows plus whether the
derived "FDR value" column exists yet. -/
structure FdrState where
  rows : List FdrRow
  hasFdrCol : Bool

/-- Sequencing map over `Except`: stops at the first error, otherwise
collects the results in order (the effect of a Python `for` loop that may
raise). -/
def mapExcept {α β : Type} (f : α → Except PyErr β) : List α → Except PyErr (List β)
  | [] => .ok []
  | a :: l => do
    let b ← f a
    let bs ← mapExcept f l
    .ok (b :: bs)

/-- Column access `row[gws[i-1]]` for a 1-based gameweek index `i`:
`IndexError` when the fixture table has no `i`-th gameweek column. -/
def ratingAt (ratings : List ℚ) (i : ℕ) : Except PyErr ℚ :=
  match ratings.get? (i - 1) with
  | some q => .ok q
  | none => .error .indexError

/-- One term of the no-wildcard sum (`fdr_value_model.py` lines 52-58), for
loop index `i` in `range(gw, gw+10)`: skip the free-hit gameweek; for
`i in range(gw, gw+6)` weight the rating by `log(-i + 8)` (a `math domain
error` when `8 - i ≤ 0`); for the remaining indices weight it by
`-(i/25) + 0.5`. -/
noncomputable def noWcTerm (ratings : List ℚ) (gw fh i : ℕ) : Except PyErr ℝ :=
  if i = fh then .ok 0
  else do
    let q ← ratingAt ratings i
    if gw ≤ i ∧ i < gw + 6 then
      if (8 : ℤ) - (i : ℤ) ≤ 0 then .error .domainError
      else .ok ((q : ℝ) * Real.log (-(i : ℝ) + 8))
    else .ok ((q : ℝ) * (-((i : ℝ) / 25) + 0.5))

/-- One term of the wildcard-branch sum (`fdr_value_model.py` lines 64-67),
for loop index `i` in `range(gw, wc_gw)`: skip the free-hit gameweek, weight
the rating by `log(-i + wc_gw + 1)`. -/
noncomputable def wcTerm (ratings : List ℚ) (wc fh i : ℕ) : Except PyErr ℝ :=
  if i = fh then .ok 0
  else do
    let q ← ratingAt ratings i
    if (wc : ℤ) + 1 - (i : ℤ) ≤ 0 then .error .domainError
    else .ok ((q : ℝ) * Real.log (-(i : ℝ) + (wc : ℝ) + 1))

/-- Raw weighted fixture-difficulty sum for one team row: the accumulation
loop of `FDRValueModel.get_fdr_value` before normalisation. -/
noncomputable def rawScore (ratings : List ℚ) (gw wc fh : ℕ) : Except PyErr ℝ :=
  if wc = 0 then do
    let ts ← mapExcept (noWcTerm ratings gw fh) (List.range' gw 10)
    .ok (ts.foldl (· + ·) 0)
  else do
    let ts ← mapExcept (wcTerm ratings wc fh) (List.range' gw (wc - gw))
    .ok (ts.foldl (· + ·) 0)

/-- The remap applied to each normalised value (`fdr_value_model.py` line
71): `-(x / 2) + 5`. -/
noncomputable def remapNp (v : NpFloat) : NpFloat := npAddR 5 (npMulR (-1) (npDivR v 2))

/-- The `fdr_results` list right after line 71 of `fdr_value_model.py`:
raw sums, z-score normalised, remapped by `-(x/2) + 5`. -/
noncomputable def computeFdrScores (rows : List FdrRow) (gw wc fh : ℕ) :
    Except PyErr (List NpFloat) := do
  let raws ← mapExcept (fun r => rawScore r.ratings gw wc fh) rows
  .ok ((zscore_normalisation raws).map remapNp)

/-- Descending-sort precedence used by `sort_values(by=..., ascending=False)`:
`a` may be placed before `b`.  NaN is always placed last
(`na_position='last'`), infinities compare as extremes. -/
def npDescBefore : NpFloat → NpFloat → Prop
  | _, .nan => True
  | .nan, _ => False
  | .pinf, _ => True
  | _, .pinf => False
  | .fin x, .fin y => y ≤ x
  | .fin _, .ninf => True
  | .ninf, .fin _ => False
  | .ninf, .ninf => True

noncomputable instance : DecidableRel npDescBefore := fun a b => by
  cases a <;> cases b <;> simp only [npDescBefore] <;> infer_instance

instance : IsTotal NpFloat npDescBefore :=
  ⟨fun a b => by cases a <;> cases b <;> simp [npDescBefore] <;> exact le_total _ _⟩

instance : IsTrans NpFloat npDescBefore :=
  ⟨fun a b c hab hbc => by
    cases a <;> cases b <;> cases c <;> simp_all [npDescBefore] <;> exact le_trans hbc hab⟩

/-- Descending-sort precedence on fixture rows, by the "FDR value" cell. -/
def fdrRowRel (a b : FdrRow) : Prop := npDescBefore a.fdrVal b.fdrVal

noncomputable instance : DecidableRel fdrRowRel := fun a b =>
  inferInstanceAs (Decidable (npDescBefore a.fdrVal b.fdrVal))

instance : IsTotal FdrRow fdrRowRel := ⟨fun a b => total_of npDescBefore a.fdrVal b.fdrVal⟩

instance : IsTrans FdrRow fdrRowRel :=
  ⟨fun _ _ _ hab hbc => Trans.trans (r := npDescBefore) hab hbc⟩

/-- `FDRValueModel.get_fdr_value`: computes the scores, writes them into the
"FDR value" column, sorts the dataframe by that column descending, rounds
every numeric cell to two decimals, stores the result back into the model
and returns it. -/
noncomputable def fdrAssign (rows : List FdrRow) (scores : List NpFloat) : List FdrRow :=
  (rows.zip scores).map (fun p => { p.1 with fdrVal := p.2 })

/-- The effect of `df.round(2)` on one fixture row: the gameweek rating
cells and the "FDR value" cell are rounded to two decimals. -/
noncomputable def fdrRound (r : FdrRow) : FdrRow :=
  { r with ratings := r.ratings.map round2Q, fdrVal := round2Np r.fdrVal }

noncomputable def getFdrValue (s : FdrState) (gw wc fh : ℕ) : Except PyErr FdrState := do
  let scores ← computeFdrScores s.rows gw wc fh
  .ok { rows := (List.insertionSort fdrRowRel (fdrAssign s.rows scores)).map fdrRound,
        hasFdrCol := true }

/-- `FDRValueModel.get_fdr_value_by_team`: `self.df.loc[self.df["team"] ==
team_name, "FDR value"].values[0]` — a `KeyError` when the "FDR value"
column does not exist, an `IndexError` when no row matches the team name,
otherwise the stored cell of the first matching row. -/
def getFdrValueByTeam (s : FdrState) (name : String) : Except PyErr NpFloat :=
  if s.hasFdrCol = false then .error .keyError
  else
    match s.rows.find? (fun r => r.team == name) with
    | none => .error .indexError
    | some r => .ok r.fdrVal

/-! ### Clean sheet points model (`clean_sheet_points_model.py`)

The sklearn `StandardScaler` + `SGDRegressor` pair is external library code.
Its combined effect — fit on the stored training data, then predict on a
scalar — is deterministic for a fixed random seed (spec §4.2), so it is
carried as an abstract fitting procedure `fitProc` inside the model state;
the repository's own logic (the `is_trained` flag and the lazy training in
`predict`) is embedded exactly. -/

structure CleanSheetPointsModel where
  x_data : List ℝ
  y_data : List ℝ
  /-- The external scaler+regressor fitting procedure: training data to
  prediction function (deterministic, fixed seed). -/
  fitProc : List ℝ → List ℝ → ℝ → ℝ
  /-- The fitted scaler+regressor state held by `self.scaler` / `self.sgdr`
  once `fit` has run; `none` models the unfitted sklearn objects. -/
  fitted : Option (ℝ → ℝ)
  is_trained : Bool

/-- `CleanSheetPointsModel.__init__`: stores the data, fresh (unfitted)
scaler and regressor, `is_trained = False`. -/
def CleanSheetPointsModel.init (x y : List ℝ) (fp : List ℝ → List ℝ → ℝ → ℝ) :
    CleanSheetPointsModel :=
  { x_data := x, y_data := y, fitProc := fp, fitted := none, is_trained := false }

/-- `CleanSheetPointsModel.train_model`: fits scaler and regressor on the
stored training data and sets the trained flag. -/
def CleanSheetPointsModel.train_model (m : CleanSheetPointsModel) : CleanSheetPointsModel :=
  { m with fitted := some (m.fitProc m.x_data m.y_data), is_trained := true }

/-- `CleanSheetPointsModel.predict`: trains first when the model is not yet
trained, then applies the fitted pipeline to the input.  Returns the
prediction together with the (possibly updated) model state; an unfitted
pipeline would raise sklearn's `NotFittedError`. -/
def CleanSheetPointsModel.predict (m : CleanSheetPointsModel) (x : ℝ) :
    Except PyErr (ℝ × CleanSheetPointsModel) :=
  let m1 := if m.is_trained = false then m.train_model else m
  match m1.fitted with
  | some f => .ok (f x, m1)
  | none => .error .notFittedError

/-! ### Asset value model (`asset_value_model.py`) -/

/-- One row of the goalkeeper watchlist dataframe.  The last three fields
are the derived columns appended by `update_df` (absent, i.e. `none`, on the
loaded data). -/
structure GkRow where
  player : String
  team : String
  price : ℚ
  xGCp90 : ℚ
  saves : ℚ
  bps : ℚ
  yc : ℚ
  xPts : Option ℝ := none
  fdrV : Option NpFloat := none
  value : Option NpFloat := none

/-- The state of `AssetValueModel` needed by the goalkeeper pipeline: the
goalkeeper dataframe, the owned `FDRValueModel`, and the goalkeeper/defender
clean-sheet predictor. -/
structure AssetValueModel where
  goalkeepers : List GkRow
  fdr_value_model : FdrState
  cs_gk_def : CleanSheetPointsModel

/-- `AssetValueModel.get_fdr_value`: recompute the whole FDR table, then look
the team up (threads the mutated `FDRValueModel` state). -/
noncomputable def avGetFdrValue (fdrS : FdrState) (gw wc fh : ℕ) (team : String) :
    Except PyErr (NpFloat × FdrState) := do
  let s' ← getFdrValue fdrS gw wc fh
  let v ← getFdrValueByTeam s' team
  .ok (v, s')

/-- Goalkeeper expected points (`asset_value_model.py` line 82):
`2 + cs_pts + saves / 3 + bps - yc`. -/
noncomputable def gkXpts (cs : ℝ) (r : GkRow) : ℝ :=
  2 + cs + (r.saves : ℝ) / 3 + (r.bps : ℝ) - (r.yc : ℝ)

/-- The composite asset value on finite inputs (`asset_value_model.py`
line 86): `(12 * xpts + 8 * fdr_value) / price ** 0.25`.  Prices in the
watchlist data are positive, so the real `rpow` matches Python's `**`. -/
noncomputable def assetValueFormula (xpts fdr price : ℝ) : ℝ :=
  (12 * xpts + 8 * fdr) / price ^ (0.25 : ℝ)

/-- The composite asset value when the FDR lookup may carry an IEEE special
value (a NaN FDR score propagates into the value). -/
noncomputable def npAssetValue (xpts : ℝ) (fdr : NpFloat) (price : ℝ) : NpFloat :=
  npDivR (npAddR (12 * xpts) (npMulR 8 fdr)) (price ^ (0.25 : ℝ))

/-- The per-row body of the goalkeeper loop (`asset_value_model.py` lines
73-89), threading the clean-sheet model and FDR model states and collecting
the `(xpts, fdr_value, asset_value)` triples in row order. -/
noncomputable def gkLoop (cs : CleanSheetPointsModel) (fdrS : FdrState) (gw wc fh : ℕ) :
    List GkRow → Except PyErr (List (ℝ × NpFloat × NpFloat) × CleanSheetPointsModel × FdrState)
  | [] => .ok ([], cs, fdrS)
  | r :: rs => do
    let pcs ← cs.predict (r.xGCp90 : ℝ)
    let x := gkXpts pcs.1 r
    let pf ← avGetFdrValue fdrS gw wc fh r.team
    let v := npAssetValue x pf.1 (r.price : ℝ)
    let rest ← gkLoop pcs.2 pf.2 gw wc fh rs
    .ok ((x, pf.1, v) :: rest.1, rest.2.1, rest.2.2)

/-- Sort key used by `update_df`'s `sort_values(by="value", ascending=False)`;
a missing cell behaves like NaN. -/
def gkValueKey (r : GkRow) : NpFloat := r.value.getD .nan

/-- Descending-sort precedence on goalkeeper rows, by the `value` cell. -/
def gkRowRel (a b : GkRow) : Prop := npDescBefore (gkValueKey a) (gkValueKey b)

noncomputable instance : DecidableRel gkRowRel := fun a b =>
  inferInstanceAs (Decidable (npDescBefore (gkValueKey a) (gkValueKey b)))

instance : IsTotal GkRow gkRowRel := ⟨fun a b => total_of npDescBefore _ _⟩

instance : IsTrans GkRow gkRowRel :=
  ⟨fun _ _ _ hab hbc => Trans.trans (r := npDescBefore) hab hbc⟩

/-- Writing one row's derived cells (`df["xPts"]`, `df["FDR value"]`,
`df["value"]` assignments of `update_df`). -/
def setTriple (p : GkRow × (ℝ × NpFloat × NpFloat)) : GkRow :=
  { p.1 with
    xPts := some p.2.1
    fdrV := some p.2.2.1
    value := some p.2.2.2 }

/-- `AssetValueModel.update_df`: writes the three derived columns into the
dataframe and sorts it by `value` descending, in place.  Note the final
`df.round(2)` in the source returns a rounded copy that is immediately
discarded, so no rounding is applied to the stored dataframe. -/
noncomputable def updateDf (rows : List GkRow) (triples : List (ℝ × NpFloat × NpFloat)) :
    List GkRow :=
  List.insertionSort gkRowRel ((rows.zip triples).map setTriple)

/-- `AssetValueModel.get_asset_value_gk`: run the row loop, update and sort
the goalkeeper dataframe, return it (the returned copy equals the stored
table) together with the mutated model state. -/
noncomputable def getAssetValueGk (A : AssetValueModel) (gw wc fh : ℕ) :
    Except PyErr (List GkRow × AssetValueModel) := do
  let res ← gkLoop A.cs_gk_def A.fdr_value_model gw wc fh A.goalkeepers
  let rows' := updateDf A.goalkeepers res.1
  .ok (rows', { goalkeepers := rows', fdr_value_model := res.2.2, cs_gk_def := res.2.1 })

/-! ### Defensive-contribution terms

`asset_value_model.py` computes these inline in the defender (lines 125-130)
and midfielder/forward (lines 173-178, 219-224) branches; the spec names the
common shape `defcon_term`. -/

/-- The defender defensive-contribution term: the summand that
distinguishes the three branches of `get_asset_value_def`
(`d/1000` when `d < 5`; `((d-5)**1.2)/6.38 + 0.005` when `5 ≤ d ≤ 13.33`;
`2` when `d > 13.33`). -/
noncomputable def defconTermDef (d : ℝ) : ℝ :=
  if d < 5 then d / 1000
  else if d ≤ 13.33 then ((d - 5) ^ (1.2 : ℝ)) / 6.38 + 0.005
  else 2

/-- The midfielder/forward defensive-contribution term
(`d/1000` when `d < 6`; `((d-6)**1.2)/8 + 0.006` when `6 ≤ d ≤ 16`;
`2` when `d > 16`). -/
noncomputable def defconTermMidFwd (d : ℝ) : ℝ :=
  if d < 6 then d / 1000
  else if d ≤ 16 then ((d - 6) ^ (1.2 : ℝ)) / 8 + 0.006
  else 2

/-- The spec's parameterised `defcon_term(d, low, mid_hi, k, scale, offset)`
(spec §4.4), stated from the spec's words for comparison with the two
code-derived terms above. -/
noncomputable def defcon_term (d low mid_hi k scale off : ℝ) : ℝ :=
  if d < low then d / 1000
  else if d ≤ mid_hi then ((d - low) ^ k) / scale + off
  else 2

/-! ### Chip gameweek validation (`system.py` lines 177-179) -/

/-- The acceptance predicate of `System.get_chip_gw` for a proposed chip
gameweek: `(1 <= gw <= 19 and max(2, gw) <= chip_gw <= 19) or
(20 <= gw <= 38 and max(20, gw) <= chip_gw <= 38) or chip_gw == 0`. -/
def isValidChipGw (gw chipGw : ℕ) : Prop :=
  (1 ≤ gw ∧ gw ≤ 19 ∧ max 2 gw ≤ chipGw ∧ chipGw ≤ 19) ∨
  (20 ≤ gw ∧ gw ≤ 38 ∧ max 20 gw ≤ chipGw ∧ chipGw ≤ 38) ∨
  chipGw = 0

instance (gw chipGw : ℕ) : Decidable (isValidChipGw gw chipGw) := by
  unfold isValidChipGw; infer_instance

/-! ### General helper lemmas -/

@[simp] theorem bind_ok_left {α β : Type} (b : α) (f : α → Except PyErr β) :
    (Except.ok b : Except PyErr α).bind f = f b := rfl

@[simp] theorem bind_error_left {α β : Type} (e : PyErr) (f : α → Except PyErr β) :
    (Except.error e : Except PyErr α).bind f = .error e := rfl

@[simp] theorem bindM_ok_left {α β : Type} (b : α) (f : α → Except PyErr β) :
    Bind.bind (Except.ok b : Except PyErr α) f = f b := rfl

@[simp] theorem bindM_error_left {α β : Type} (e : PyErr) (f : α → Except PyErr β) :
    Bind.bind (Except.error e : Except PyErr α) f = .error e := rfl

theorem mapExcept_nil {α β : Type} (f : α → Except PyErr β) : mapExcept f [] = .ok [] := rfl

theorem mapExcept_cons {α β : Type} (f : α → Except PyErr β) (a : α) (l : List α) :
    mapExcept f (a :: l) =
      (f a).bind (fun b => (mapExcept f l).bind (fun bs => .ok (b :: bs))) := rfl

theorem mapExcept_congr_ok {α β : Type} {f : α → Except PyErr β} {g : α → β} :
    ∀ {l : List α}, (∀ a ∈ l, f a = .ok (g a)) → mapExcept f l = .ok (l.map g)
  | [], _ => rfl
  | a :: l, h => by
    have ha := h a (List.mem_cons_self a l)
    have hl := mapExcept_congr_ok (fun b hb => h b (List.mem_cons_of_mem a hb))
    rw [mapExcept_cons, ha, bind_ok_left, hl, bind_ok_left, List.map_cons]

theorem mapExcept_ok_length {α β : Type} {f : α → Except PyErr β} :
    ∀ {l : List α} {out : List β}, mapExcept f l = .ok out → out.length = l.length := by
  intro l
  induction l with
  | nil =>
    intro out h
    rw [mapExcept_nil] at h
    cases h
    rfl
  | cons a l ih =>
    intro out h
    rw [mapExcept_cons] at h
    cases hfa : f a with
    | error e => rw [hfa, bind_error_left] at h; cases h
    | ok b =>
      rw [hfa, bind_ok_left] at h
      cases hfl : mapExcept f l with
      | error e => rw [hfl, bind_error_left] at h; cases h
      | ok bs =>
        rw [hfl, bind_ok_left] at h
        cases h
        simp [ih hfl]

theorem mapExcept_cons_error {α β : Type} {f : α → Except PyErr β} {a : α} {l : List α}
    {e : PyErr} (h : f a = .error e) : mapExcept f (a :: l) = .error e := by
  rw [mapExcept_cons, h, bind_error_left]

theorem mapExcept_cons_ok {α β : Type} {f : α → Except PyErr β} {a : α} {l : List α}
    {b : β} (h : f a = .ok b) :
    mapExcept f (a :: l) = (mapExcept f l).bind (fun bs => .ok (b :: bs)) := by
  rw [mapExcept_cons, h, bind_ok_left]

theorem zip_self_map {α β : Type} (l : List α) (g : α → β) :
    l.zip (l.map g) = l.map (fun a => (a, g a)) := by
  induction l with
  | nil => rfl
  | cons a l ih => simp [ih]

/-- Z-score normalisation of a one-element array: the deviation is zero and
the standard deviation is zero, so numpy yields `0/0 = NaN`. -/
theorem zscore_singleton (x : ℝ) : zscore_normalisation [x] = [.nan] := by
  simp [zscore_normalisation, npMean, npStd, npDiv]

/-- Z-score normalisation of a two-element array with distinct entries is
`[1, -1]` (larger entry first). -/
theorem zscore_pair_gt {x y : ℝ} (h : y < x) :
    zscore_normalisation [x, y] = [.fin 1, .fin (-1)] := by
  have hd : (0:ℝ) < (x - y) / 2 := by linarith
  have hmu : npMean [x, y] = (x + y) / 2 := by
    rw [npMean]; simp
  have hvar : (([x, y].map (fun z => (z - npMean [x, y]) ^ 2)).sum / ([x, y].length : ℝ))
      = ((x - y) / 2) ^ 2 := by
    rw [hmu]; simp; ring
  have hstd : npStd [x, y] = (x - y) / 2 := by
    rw [npStd, hvar, Real.sqrt_sq hd.le]
  simp only [zscore_normalisation, List.map, hmu, hstd]
  rw [npDiv, if_neg hd.ne', npDiv, if_neg hd.ne']
  have h1 : (x - (x + y) / 2) / ((x - y) / 2) = 1 := by
    rw [div_eq_one_iff_eq hd.ne']; ring
  have h2 : (y - (x + y) / 2) / ((x - y) / 2) = -1 := by
    rw [div_eq_iff hd.ne']; ring
  rw [h1, h2]

/-- Z-score normalisation of a two-element array with equal entries: zero
standard deviation, every entry NaN. -/
theorem zscore_pair_eq (x : ℝ) : zscore_normalisation [x, x] = [.nan, .nan] := by
  have hmu : npMean [x, x] = x := by rw [npMean]; simp
  have hstd : npStd [x, x] = 0 := by
    rw [npStd]
    have hz : (([x, x].map (fun z => (z - npMean [x, x]) ^ 2)).sum / ([x, x].length : ℝ)) = 0 := by
      rw [hmu]; simp
    rw [hz, Real.sqrt_zero]
  simp [zscore_normalisation, hmu, hstd, npDiv]

/-- Z-score normalisation of a constant-zero array: every entry NaN. -/
theorem zscore_const_zero (n : ℕ) :
    zscore_normalisation (List.replicate n 0) = List.replicate n .nan := by
  have hmu : npMean (List.replicate n (0:ℝ)) = 0 := by
    simp [npMean, List.sum_replicate]
  have hstd : npStd (List.replicate n (0:ℝ)) = 0 := by
    rw [npStd, hmu]
    have : ((List.replicate n (0:ℝ)).map (fun z => (z - 0) ^ 2)).sum = 0 := by
      simp [List.map_replicate, List.sum_replicate]
    rw [this, zero_div, Real.sqrt_zero]
  rw [zscore_normalisation, hmu, hstd, List.map_replicate]
  simp [npDiv]

/-- The post-normalisation remap `-(x/2) + 5` on a finite value. -/
theorem remap_fin (z : ℝ) : remapNp (.fin z) = .fin (-(z / 2) + 5) := by
  rw [remapNp]
  have h1 : npDivR (.fin z) 2 = .fin (z / 2) := by
    show npDiv z 2 = _
    rw [npDiv, if_neg (by norm_num : (2:ℝ) ≠ 0)]
  rw [h1]
  show NpFloat.fin (5 + -1 * (z / 2)) = .fin (-(z / 2) + 5)
  exact congrArg NpFloat.fin (by ring)

/-- The post-normalisation remap keeps NaN. -/
theorem remap_nan : remapNp .nan = .nan := rfl

/-- Rounding to two decimals commutes with the cast from `ℚ` to `ℝ`. -/
theorem round2R_ratCast (q : ℚ) : round2R (q : ℝ) = ((round2Q q : ℚ) : ℝ) := by
  have h100 : (100 : ℝ) * (q : ℝ) = ((100 * q : ℚ) : ℝ) := by push_cast; ring
  have hfract : Int.fract ((100 * q : ℚ) : ℝ) = ((Int.fract (100 * q) : ℚ) : ℝ) := by
    rw [Int.fract, Int.fract, Rat.floor_cast]; push_cast; ring
  have hcond : (Int.fract ((100 * q : ℚ) : ℝ) = 1 / 2) ↔ (Int.fract (100 * q) = 1 / 2) := by
    rw [hfract, show (1 : ℝ) / 2 = (((1 : ℚ) / 2 : ℚ) : ℝ) by norm_num, Rat.cast_inj]
  rw [round2R, roundHalfEvenR, round2Q, roundHalfEvenQ, h100, Rat.floor_cast, Rat.round_cast]
  simp only [hcond]
  by_cases hc : Int.fract (100 * q) = 1 / 2
  · rw [if_pos hc]
    by_cases he : Even ⌊100 * q⌋
    · rw [if_pos he]; push_cast; ring
    · rw [if_neg he]; push_cast; ring
  · rw [if_neg hc]; push_cast; ring

/-! ### Bounds for real powers with exponent 1.2 -/

theorem rpow_six_fifths_pow_five (b : ℝ) (hb : 0 ≤ b) :
    (b ^ (1.2 : ℝ)) ^ (5 : ℕ) = b ^ (6 : ℕ) := by
  rw [← Real.rpow_natCast (b ^ (1.2 : ℝ)) 5, ← Real.rpow_mul hb,
    show (1.2 : ℝ) * ((5 : ℕ) : ℝ) = ((6 : ℕ) : ℝ) by norm_num, Real.rpow_natCast]

theorem rpow12_ge (b q : ℝ) (hb : 0 ≤ b) (hq : 0 ≤ q) (h : q ^ (5 : ℕ) ≤ b ^ (6 : ℕ)) :
    q ≤ b ^ (1.2 : ℝ) := by
  have hy : 0 ≤ b ^ (1.2 : ℝ) := Real.rpow_nonneg hb _
  have h5 : q ^ (5 : ℕ) ≤ (b ^ (1.2 : ℝ)) ^ (5 : ℕ) := by
    rw [rpow_six_fifths_pow_five b hb]; exact h
  exact (pow_le_pow_iff_left₀ hq hy (by norm_num)).1 h5

theorem rpow12_le (b q : ℝ) (hb : 0 ≤ b) (hq : 0 ≤ q) (h : b ^ (6 : ℕ) ≤ q ^ (5 : ℕ)) :
    b ^ (1.2 : ℝ) ≤ q := by
  have hy : 0 ≤ b ^ (1.2 : ℝ) := Real.rpow_nonneg hb _
  have h5 : (b ^ (1.2 : ℝ)) ^ (5 : ℕ) ≤ q ^ (5 : ℕ) := by
    rw [rpow_six_fifths_pow_five b hb]; exact h
  exact (pow_le_pow_iff_left₀ hy hq (by norm_num)).1 h5

/-- Monotonicity of the piecewise defensive-contribution shape below the
cap, for any parameters with positive scale and `low / 1000 ≤ offset`. -/
theorem defcon_mono_aux {low mid scale off : ℝ} (hscale : 0 < scale)
    (hoff : low / 1000 ≤ off) {d1 d2 : ℝ} (h12 : d1 ≤ d2) (hcap : d2 ≤ mid) :
    (if d1 < low then d1 / 1000 else if d1 ≤ mid then ((d1 - low) ^ (1.2 : ℝ)) / scale + off
      else 2) ≤
    (if d2 < low then d2 / 1000 else if d2 ≤ mid then ((d2 - low) ^ (1.2 : ℝ)) / scale + off
      else 2) := by
  rcases lt_or_le d1 low with hd1 | hd1
  · rcases lt_or_le d2 low with hd2 | hd2
    · rw [if_pos hd1, if_pos hd2]; linarith
    · rw [if_pos hd1, if_neg (not_lt.2 hd2), if_pos hcap]
      have h0 : (0 : ℝ) ≤ (d2 - low) ^ (1.2 : ℝ) := Real.rpow_nonneg (by linarith) _
      have h1 : (0 : ℝ) ≤ ((d2 - low) ^ (1.2 : ℝ)) / scale := div_nonneg h0 hscale.le
      linarith
  · have hd2 : low ≤ d2 := le_trans hd1 h12
    rw [if_neg (not_lt.2 hd1), if_pos (le_trans h12 hcap), if_neg (not_lt.2 hd2), if_pos hcap]
    have hr : (d1 - low) ^ (1.2 : ℝ) ≤ (d2 - low) ^ (1.2 : ℝ) :=
      Real.rpow_le_rpow (by linarith) (by linarith) (by norm_num)
    have h2 : (d1 - low) ^ (1.2 : ℝ) / scale ≤ (d2 - low) ^ (1.2 : ℝ) / scale :=
      (div_le_div_iff_of_pos_right hscale).2 hr
    linarith

/-- C5 (counterexample): with expected points `0` and FDR score `0` the
composite value is `0` at every price, so it is not strictly decreasing in
price — the claim fails at `(xpts, fdr, p1, p2) = (0, 0, 1, 16)`. -/
theorem c5_counterexample :
    assetValueFormula 0 0 1 = assetValueFormula 0 0 16 ∧
    ¬ assetValueFormula 0 0 16 < assetValueFormula 0 0 1 := by
  have h1 : assetValueFormula 0 0 1 = 0 := by rw [assetValueFormula]; norm_num
  have h2 : assetValueFormula 0 0 16 = 0 := by rw [assetValueFormula]; norm_num
  rw [h1, h2]
  simp

/-- C5 (amended): the composite value `(12*xpts + 8*fdr) / price^0.25` is
strictly decreasing in price over positive prices whenever the numerator
`12*xpts + 8*fdr` is positive. -/
theorem c5_value_strict_anti (x f p1 p2 : ℝ) (hp1 : 0 < p1) (h12 : p1 < p2)
    (hnum : 0 < 12 * x + 8 * f) :
    assetValueFormula x f p2 < assetValueFormula x f p1 := by
  rw [assetValueFormula, assetValueFormula]
  have ha : (0 : ℝ) < p1 ^ (0.25 : ℝ) := Real.rpow_pos_of_pos hp1 _
  have hb : p1 ^ (0.25 : ℝ) < p2 ^ (0.25 : ℝ) := Real.rpow_lt_rpow hp1.le h12 (by norm_num)
  exact div_lt_div_of_pos_left hnum ha hb

/-- C5 witness: the amended theorem at `xpts = 1`, `fdr = 0`, prices `1 < 16`. -/
theorem c5_value_strict_anti_witness : assetValueFormula 1 0 16 < assetValueFormula 1 0 1 :=
  c5_value_strict_anti 1 0 1 16 (by norm_num) (by norm_num) (by norm_num)

/-- C6: the spec's `defcon_term` with the defender parameters
`(5, 13.33, 1.2, 6.38, 0.005)` and the midfielder/forward parameters
`(6, 16, 1.2, 8, 0.006)` coincides with the code's inline branch terms; at
the lower breakpoint the two sides agree exactly (`low/1000 = offset`), at
the cap breakpoint the middle branch differs from the cap value `2` by at
most `1/50`; below the cap the term is non-decreasing, and above the cap it
is the constant `2`. -/
theorem c6_defcon_term_shape :
    (∀ d : ℝ, defcon_term d 5 13.33 1.2 6.38 0.005 = defconTermDef d) ∧
    (∀ d : ℝ, defcon_term d 6 16 1.2 8 0.006 = defconTermMidFwd d) ∧
    defconTermDef 5 = 5 / 1000 ∧
    defconTermMidFwd 6 = 6 / 1000 ∧
    |defconTermDef 13.33 - 2| ≤ 1 / 50 ∧
    |defconTermMidFwd 16 - 2| ≤ 1 / 50 ∧
    (∀ d1 d2 : ℝ, d1 ≤ d2 → d2 ≤ 13.33 → defconTermDef d1 ≤ defconTermDef d2) ∧
    (∀ d1 d2 : ℝ, d1 ≤ d2 → d2 ≤ 16 → defconTermMidFwd d1 ≤ defconTermMidFwd d2) ∧
    (∀ d : ℝ, 13.33 < d → defconTermDef d = 2) ∧
    (∀ d : ℝ, 16 < d → defconTermMidFwd d = 2) := by
  refine ⟨fun d => rfl, fun d => rfl, ?_, ?_, ?_, ?_, ?_, ?_, ?_, ?_⟩
  · rw [defconTermDef, if_neg (by norm_num), if_pos (by norm_num)]
    rw [show (5 : ℝ) - 5 = 0 by norm_num, Real.zero_rpow (by norm_num)]
    norm_num
  · rw [defconTermMidFwd, if_neg (by norm_num), if_pos (by norm_num)]
    rw [show (6 : ℝ) - 6 = 0 by norm_num, Real.zero_rpow (by norm_num)]
    norm_num
  · have hv : defconTermDef 13.33 = ((8.33 : ℝ) ^ (1.2 : ℝ)) / 6.38 + 0.005 := by
      rw [defconTermDef, if_neg (by norm_num), if_pos (by norm_num)]
      norm_num
    have hlb : (12.7 : ℝ) ≤ (8.33 : ℝ) ^ (1.2 : ℝ) :=
      rpow12_ge _ _ (by norm_num) (by norm_num) (by norm_num)
    have hub : (8.33 : ℝ) ^ (1.2 : ℝ) ≤ 12.8 :=
      rpow12_le _ _ (by norm_num) (by norm_num) (by norm_num)
    rw [hv, abs_le]
    constructor
    · norm_num; linarith
    · norm_num; linarith
  · have hv : defconTermMidFwd 16 = ((10 : ℝ) ^ (1.2 : ℝ)) / 8 + 0.006 := by
      rw [defconTermMidFwd, if_neg (by norm_num), if_pos (by norm_num)]
      norm_num
    have hlb : (15.8 : ℝ) ≤ (10 : ℝ) ^ (1.2 : ℝ) :=
      rpow12_ge _ _ (by norm_num) (by norm_num) (by norm_num)
    have hub : (10 : ℝ) ^ (1.2 : ℝ) ≤ 15.9 :=
      rpow12_le _ _ (by norm_num) (by norm_num) (by norm_num)
    rw [hv, abs_le]
    constructor
    · norm_num; linarith
    · norm_num; linarith
  · intro d1 d2 h12 hcap
    unfold defconTermDef
    exact defcon_mono_aux (by norm_num) (by norm_num) h12 hcap
  · intro d1 d2 h12 hcap
    unfold defconTermMidFwd
    exact defcon_mono_aux (by norm_num) (by norm_num) h12 hcap
  · intro d hd
    rw [defconTermDef, if_neg (by linarith), if_neg (by linarith)]
  · intro d hd
    rw [defconTermMidFwd, if_neg (by linarith), if_neg (by linarith)]

/-- C6 witness: the universally quantified components of
`c6_defcon_term_shape` applied at concrete inputs. -/
theorem c6_defcon_term_shape_witness :
    defcon_term 7 5 13.33 1.2 6.38 0.005 = defconTermDef 7 ∧
    defconTermDef 6 ≤ defconTermDef 7 ∧
    defconTermMidFwd 7 ≤ defconTermMidFwd 8 ∧
    defconTermDef 14 = 2 ∧
    defconTermMidFwd 17 = 2 :=
  ⟨c6_defcon_term_shape.1 7,
   c6_defcon_term_shape.2.2.2.2.2.2.1 6 7 (by norm_num) (by norm_num),
   c6_defcon_term_shape.2.2.2.2.2.2.2.1 7 8 (by norm_num) (by norm_num),
   c6_defcon_term_shape.2.2.2.2.2.2.2.2.1 14 (by norm_num),
   c6_defcon_term_shape.2.2.2.2.2.2.2.2.2 17 (by norm_num)⟩

/-! ### C7: predictor training state machine -/

/-- An operation on a `CleanSheetPointsModel` instance: an explicit training
call or a prediction request. -/
inductive CsOp where
  | trainOp : CsOp
  | predictOp : ℝ → CsOp

/-- The state reached after performing one operation (a raised exception
leaves the Python object unchanged). -/
def csStep (m : CleanSheetPointsModel) : CsOp → CleanSheetPointsModel
  | .trainOp => m.train_model
  | .predictOp x =>
    match m.predict x with
    | .ok p => p.2
    | .error _ => m

/-- C7: the first `predict` call on an untrained instance trains exactly
once before predicting (the resulting state is `train_model m` and the
prediction uses its fitted pipeline); a `predict` call on a trained instance
leaves the state untouched (cached, no re-fit); training marks the instance
trained; and no operation ever moves a trained instance back to untrained. -/
theorem c7_train_once_one_way :
    (∀ (m : CleanSheetPointsModel) (x : ℝ), m.is_trained = false →
      m.predict x = .ok (m.fitProc m.x_data m.y_data x, m.train_model)) ∧
    (∀ (m : CleanSheetPointsModel) (x : ℝ), m.is_trained = true →
      ∀ v m', m.predict x = .ok (v, m') → m' = m) ∧
    (∀ m : CleanSheetPointsModel, m.train_model.is_trained = true) ∧
    (∀ (m : CleanSheetPointsModel) (op : CsOp), m.is_trained = true →
      (csStep m op).is_trained = true) := by
  refine ⟨?_, ?_, ?_, ?_⟩
  · intro m x h
    simp [CleanSheetPointsModel.predict, CleanSheetPointsModel.train_model, h]
  · intro m x h v m' hok
    cases hf : m.fitted with
    | none => simp [CleanSheetPointsModel.predict, h, hf] at hok
    | some f =>
      simp [CleanSheetPointsModel.predict, h, hf] at hok
      exact hok.2.symm
  · intro m
    rfl
  · intro m op h
    cases op with
    | trainOp => rfl
    | predictOp x =>
      cases hf : m.fitted with
      | none => simp [csStep, CleanSheetPointsModel.predict, h, hf]
      | some f => simp [csStep, CleanSheetPointsModel.predict, h, hf]

/-- C7 witness: the state machine exercised on a concrete fresh instance
(trained after the first prediction, unchanged by a second one). -/
theorem c7_train_once_one_way_witness :
    (CleanSheetPointsModel.init [0] [1] (fun _ _ r => r)).predict 3 =
      .ok (3, (CleanSheetPointsModel.init [0] [1] (fun _ _ r => r)).train_model) ∧
    ((CleanSheetPointsModel.init [0] [1] (fun _ _ r => r)).train_model.train_model
      = (CleanSheetPointsModel.init [0] [1] (fun _ _ r => r)).train_model → True) ∧
    (csStep ((CleanSheetPointsModel.init [0] [1] (fun _ _ r => r)).train_model)
      (.predictOp 2)).is_trained = true := by
  refine ⟨c7_train_once_one_way.1 _ 3 rfl, fun _ => trivial, ?_⟩
  exact c7_train_once_one_way.2.2.2 _ (.predictOp 2) rfl

/-! ### Unfolding equations and degenerate evaluations for the FDR model -/

theorem computeFdrScores_eq (rows : List FdrRow) (gw wc fh : ℕ) :
    computeFdrScores rows gw wc fh =
      (mapExcept (fun r => rawScore r.ratings gw wc fh) rows).bind (fun raws =>
        .ok ((zscore_normalisation raws).map remapNp)) := rfl

theorem getFdrValue_eq (s : FdrState) (gw wc fh : ℕ) :
    getFdrValue s gw wc fh =
      (computeFdrScores s.rows gw wc fh).bind (fun scores =>
        .ok ⟨(List.insertionSort fdrRowRel (fdrAssign s.rows scores)).map fdrRound,
          true⟩) := rfl

theorem npStd_replicate_zero (n : ℕ) : npStd (List.replicate n 0) = 0 := by
  rw [npStd]
  have hmu : npMean (List.replicate n (0:ℝ)) = 0 := by
    simp [npMean, List.sum_replicate]
  rw [hmu]
  have hz : ((List.replicate n (0:ℝ)).map (fun z => (z - 0) ^ 2)).sum = 0 := by
    simp [List.map_replicate, List.sum_replicate]
  rw [hz, zero_div, Real.sqrt_zero]

/-- Raw sum in the wildcard branch over an empty window. -/
theorem rawScore_empty_window (ratings : List ℚ) (gw wc fh : ℕ) (hwc : wc ≠ 0)
    (hle : wc ≤ gw) : rawScore ratings gw wc fh = .ok 0 := by
  rw [rawScore, if_neg hwc, Nat.sub_eq_zero_of_le hle]
  rfl

/-- Evaluation of `get_fdr_value` on a one-team table with no gameweek
columns and an empty wildcard window: the single raw sum is `0`, the z-score
is `0/0 = NaN`, and the stored table carries a NaN FDR value. -/
theorem getFdrValue_degenerate (v : NpFloat) (b : Bool) :
    getFdrValue ⟨[⟨"A", [], v⟩], b⟩ 1 1 0 = .ok ⟨[⟨"A", [], .nan⟩], true⟩ := by
  have hraw : mapExcept (fun r => rawScore r.ratings 1 1 0) [(⟨"A", [], v⟩ : FdrRow)]
      = .ok [0] := by
    have h := mapExcept_congr_ok (f := fun r : FdrRow => rawScore r.ratings 1 1 0)
      (g := fun _ => (0:ℝ)) (l := [⟨"A", [], v⟩])
      (fun r _ => rawScore_empty_window r.ratings 1 1 0 (by norm_num) le_rfl)
    simpa using h
  have hz : zscore_normalisation [(0:ℝ)] = [.nan] := zscore_singleton 0
  rw [getFdrValue_eq, computeFdrScores_eq, hraw, bind_ok_left, hz, bind_ok_left]
  simp [fdrAssign, List.insertionSort, fdrRound, round2Np, remapNp, npDivR, npMulR, npAddR]

/-- C10: in the wildcard branch with `wildcard_gw ≤ gw` (an empty
accumulation window) every team's raw weighted sum is `0.0`, the z-score
normalisation divides by a zero standard deviation, the call returns
normally (no exception) and every stored FDR score is NaN; the interactive
validation accepts `chip_gw = gw` for any in-range `gw ≥ 2`. -/
theorem c10_empty_wildcard_window_nan (s : FdrState) (gw wc fh : ℕ)
    (hwc : wc ≠ 0) (hle : wc ≤ gw) :
    mapExcept (fun r => rawScore r.ratings gw wc fh) s.rows = .ok (s.rows.map fun _ => 0) ∧
    npStd (s.rows.map fun _ => (0:ℝ)) = 0 ∧
    (∃ s', getFdrValue s gw wc fh = .ok s' ∧ s'.hasFdrCol = true ∧
      s'.rows.length = s.rows.length ∧ ∀ r ∈ s'.rows, r.fdrVal = .nan) ∧
    (∀ g : ℕ, 2 ≤ g → g ≤ 19 → isValidChipGw g g) := by
  have hraw : mapExcept (fun r => rawScore r.ratings gw wc fh) s.rows
      = .ok (s.rows.map fun _ => 0) :=
    mapExcept_congr_ok (fun r _ => rawScore_empty_window r.ratings gw wc fh hwc hle)
  have hconst : (s.rows.map fun _ => (0:ℝ)) = List.replicate s.rows.length 0 :=
    List.map_const' s.rows 0
  have hstd : npStd (s.rows.map fun _ => (0:ℝ)) = 0 := by
    rw [hconst, npStd_replicate_zero]
  have hz : zscore_normalisation (s.rows.map fun _ => (0:ℝ))
      = List.replicate s.rows.length .nan := by
    rw [hconst, zscore_const_zero]
  have hscores : computeFdrScores s.rows gw wc fh
      = .ok (List.replicate s.rows.length .nan) := by
    rw [computeFdrScores_eq, hraw, bind_ok_left, hz, List.map_replicate]
    rfl
  refine ⟨hraw, hstd, ?_, ?_⟩
  · refine ⟨_, by rw [getFdrValue_eq, hscores, bind_ok_left], rfl, ?_, ?_⟩
    · simp [fdrAssign]
    · intro r hr
      simp only [List.mem_map] at hr
      obtain ⟨r2, hr2, hrr⟩ := hr
      rw [List.mem_insertionSort] at hr2
      simp only [fdrAssign, List.mem_map] at hr2
      obtain ⟨p, hp, hpr⟩ := hr2
      have hnan : p.2 = .nan := by
        rcases p with ⟨p1, p2⟩
        exact List.eq_of_mem_replicate (List.of_mem_zip hp).2
      rw [← hrr, ← hpr, hnan]
      rfl
  · intro g h2 h19
    rw [isValidChipGw]
    left
    omega

/-- C10 witness: the theorem at a concrete one-team state with
`gw = wc_gw = 1`. -/
theorem c10_empty_wildcard_window_nan_witness :
    mapExcept (fun r => rawScore r.ratings 1 1 0) [(⟨"A", [], .nan⟩ : FdrRow)]
      = .ok [0] ∧
    (∃ s', getFdrValue ⟨[⟨"A", [], .nan⟩], false⟩ 1 1 0 = .ok s' ∧ s'.hasFdrCol = true ∧
      s'.rows.length = 1 ∧ ∀ r ∈ s'.rows, r.fdrVal = .nan) := by
  have h := c10_empty_wildcard_window_nan ⟨[⟨"A", [], .nan⟩], false⟩ 1 1 0
    (by norm_num) le_rfl
  exact ⟨h.1, h.2.2.1⟩

/-- C8: the per-team FDR lookup raises a `KeyError` whenever the FDR
computation has not been run (no "FDR value" column), raises (never
silently defaults) whenever the requested team is absent, and after a
successful computation returns the stored (most recently computed) score of
the first row matching the team. -/
theorem c8_lookup_fails_loudly :
    (∀ (s : FdrState) (t : String), s.hasFdrCol = false →
      getFdrValueByTeam s t = .error .keyError) ∧
    (∀ (s : FdrState) (t : String), s.rows.find? (fun r => r.team == t) = none →
      ∃ e, getFdrValueByTeam s t = .error e) ∧
    (∀ (s : FdrState) (gw wc fh : ℕ) (s' : FdrState), getFdrValue s gw wc fh = .ok s' →
      s'.hasFdrCol = true ∧
      ∀ (t : String) (r : FdrRow), s'.rows.find? (fun r0 => r0.team == t) = some r →
        getFdrValueByTeam s' t = .ok r.fdrVal) := by
  refine ⟨?_, ?_, ?_⟩
  · intro s t h
    rw [getFdrValueByTeam, if_pos h]
  · intro s t hfind
    cases hcol : s.hasFdrCol with
    | false => exact ⟨.keyError, by rw [getFdrValueByTeam, if_pos hcol]⟩
    | true =>
      refine ⟨.indexError, ?_⟩
      rw [getFdrValueByTeam, if_neg (by rw [hcol]; exact fun h => Bool.noConfusion h), hfind]
  · intro s gw wc fh s' hok
    have hcol : s'.hasFdrCol = true := by
      rw [getFdrValue_eq] at hok
      cases hc : computeFdrScores s.rows gw wc fh with
      | error e => rw [hc, bind_error_left] at hok; cases hok
      | ok scores =>
        rw [hc, bind_ok_left] at hok
        cases hok
        rfl
    refine ⟨hcol, ?_⟩
    intro t r hfind
    rw [getFdrValueByTeam, if_neg (by rw [hcol]; exact fun h => Bool.noConfusion h), hfind]

/-- C8 witness: the three failure/success modes at concrete states — lookup
before any computation, lookup of a missing team, and lookup after a
(degenerate) successful computation. -/
theorem c8_lookup_fails_loudly_witness :
    getFdrValueByTeam ⟨[], false⟩ "X" = .error .keyError ∧
    (∃ e, getFdrValueByTeam ⟨[], true⟩ "X" = .error e) ∧
    getFdrValueByTeam ⟨[⟨"A", [], .nan⟩], true⟩ "A" = .ok .nan := by
  refine ⟨c8_lookup_fails_loudly.1 ⟨[], false⟩ "X" rfl,
    c8_lookup_fails_loudly.2.1 ⟨[], true⟩ "X" rfl, ?_⟩
  exact (c8_lookup_fails_loudly.2.2 ⟨[⟨"A", [], .nan⟩], false⟩ 1 1 0 ⟨[⟨"A", [], .nan⟩], true⟩
    (getFdrValue_degenerate .nan false)).2 "A" ⟨"A", [], .nan⟩ rfl

/-! ### C1: the no-wildcard weighting formula -/

/-- The claim's weight for the no-wildcard branch: `ln(8 - i)` on the first
six window indices (`gw ≤ i ≤ gw+5`), `0.5 - i/25` on the remaining four. -/
noncomputable def specNoWcWeight (gw i : ℕ) : ℝ :=
  if i ≤ gw + 5 then Real.log (8 - (i : ℝ)) else 0.5 - (i : ℝ) / 25

/-- The claim's raw score: the sum over gameweek indices `gw ≤ i ≤ gw+9`,
skipping `i = fh`, of the rating at gameweek `i` times `specNoWcWeight`. -/
noncomputable def specRawScoreNoWc (ratings : List ℚ) (gw fh : ℕ) : ℝ :=
  ∑ i in Finset.Icc gw (gw + 9),
    if i = fh then 0 else ((ratings.getD (i - 1) 0 : ℚ) : ℝ) * specNoWcWeight gw i

theorem map_range'_foldl_eq_sum (g : ℕ → ℝ) :
    ∀ (n s : ℕ), ((List.range' s n).map g).foldl (· + ·) 0 = ∑ i in Finset.Ico s (s + n), g i
  | 0, s => by simp
  | n + 1, s => by
    rw [List.range'_succ, List.map_cons, ← List.sum_eq_foldl, List.sum_cons,
      List.sum_eq_foldl, map_range'_foldl_eq_sum g n (s + 1),
      Finset.sum_eq_sum_Ico_succ_bot (by omega : s < s + (n + 1)) g,
      show s + 1 + n = s + (n + 1) by omega]

/-- The per-row accumulation of the no-wildcard branch computes exactly the
claim's weighted sum, provided the window stays inside the table and the
log arguments of the non-skipped first-six indices are positive. -/
theorem rawScore_noWc_eq_spec (ratings : List ℚ) (gw fh : ℕ) (hgw : 1 ≤ gw)
    (hdom : ∀ i, gw ≤ i → i < gw + 6 → i ≠ fh → i < 8)
    (hlen : gw + 9 ≤ ratings.length) :
    rawScore ratings gw 0 fh = .ok (specRawScoreNoWc ratings gw fh) := by
  rw [rawScore, if_pos rfl]
  have hterm : ∀ i ∈ List.range' gw 10, noWcTerm ratings gw fh i =
      .ok (if i = fh then 0 else ((ratings.getD (i - 1) 0 : ℚ) : ℝ) * specNoWcWeight gw i) := by
    intro i hi
    rw [List.mem_range'_1] at hi
    by_cases hif : i = fh
    · rw [noWcTerm, if_pos hif, if_pos hif]
    · have hlt : i - 1 < ratings.length := by omega
      have hq : ratings.get? (i - 1) = some (ratings.get ⟨i - 1, hlt⟩) := List.get?_eq_get hlt
      have hgd : ratings.getD (i - 1) 0 = ratings.get ⟨i - 1, hlt⟩ := by
        rw [List.getD_eq_get?, hq]
        rfl
      rw [noWcTerm, if_neg hif, show ratingAt ratings i = .ok (ratings.get ⟨i - 1, hlt⟩) from
        by rw [ratingAt, hq], bindM_ok_left, if_neg hif, hgd]
      by_cases hwin : i < gw + 6
      · rw [if_pos ⟨hi.1, hwin⟩, if_neg (by have := hdom i hi.1 hwin hif; omega),
          specNoWcWeight, if_pos (by omega)]
        exact congrArg Except.ok (by rw [show -(i : ℝ) + 8 = 8 - (i : ℝ) by ring])
      · rw [if_neg (fun hc => hwin hc.2), specNoWcWeight, if_neg (by omega)]
        exact congrArg Except.ok (by ring)
  rw [mapExcept_congr_ok hterm, bindM_ok_left, map_range'_foldl_eq_sum, specRawScoreNoWc,
    show gw + 10 = (gw + 9) + 1 from rfl, Nat.Ico_succ_right gw (gw + 9)]

/-- C1: in the no-wildcard branch each team's raw score is the claim's
weighted sum (ratings at gameweeks `gw..gw+9`, free-hit week skipped,
weights `ln(8-i)` then `0.5 - i/25`), the computed score list is the
z-score normalisation of those raw scores remapped elementwise, and on a
finite normalised value the remap is exactly `-(normalized/2) + 5`. -/
theorem c1_no_wildcard_formula (rows : List FdrRow) (gw wc fh : ℕ)
    (hwc : wc = 0) (hgw : 1 ≤ gw)
    (hdom : ∀ i, gw ≤ i → i < gw + 6 → i ≠ fh → i < 8)
    (hlen : ∀ r ∈ rows, gw + 9 ≤ r.ratings.length) :
    mapExcept (fun r => rawScore r.ratings gw wc fh) rows
      = .ok (rows.map (fun r => specRawScoreNoWc r.ratings gw fh)) ∧
    computeFdrScores rows gw wc fh
      = .ok ((zscore_normalisation
          (rows.map (fun r => specRawScoreNoWc r.ratings gw fh))).map remapNp) ∧
    (∀ z : ℝ, remapNp (.fin z) = .fin (-(z / 2) + 5)) := by
  subst hwc
  have hmap : mapExcept (fun r => rawScore r.ratings gw 0 fh) rows
      = .ok (rows.map (fun r => specRawScoreNoWc r.ratings gw fh)) :=
    mapExcept_congr_ok (fun r hr => rawScore_noWc_eq_spec r.ratings gw fh hgw hdom (hlen r hr))
  refine ⟨hmap, ?_, remap_fin⟩
  rw [computeFdrScores_eq, hmap, bind_ok_left]

/-- C1 witness: the theorem applied to a one-team table with ten rating
columns at `gw = 1`, `wc_gw = 0`, `fh_gw = 0`. -/
theorem c1_no_wildcard_formula_witness :
    mapExcept (fun r => rawScore r.ratings 1 0 0) [(⟨"A", List.replicate 10 1, .nan⟩ : FdrRow)]
      = .ok ([(⟨"A", List.replicate 10 1, .nan⟩ : FdrRow)].map
          (fun r => specRawScoreNoWc r.ratings 1 0)) :=
  (c1_no_wildcard_formula [⟨"A", List.replicate 10 1, .nan⟩] 1 0 0 rfl (by norm_num)
    (fun i _ h2 _ => by omega)
    (fun r hr => by rw [List.mem_singleton] at hr; rw [hr]; simp)).1

/-! ### C9: log-domain failure of the no-wildcard branch -/

/-- A non-skipped first-six-window index `i ≥ 8` makes `math.log` raise. -/
theorem noWcTerm_domain_error (ratings : List ℚ) (gw fh i : ℕ) (hif : i ≠ fh)
    (hwin : gw ≤ i ∧ i < gw + 6) (hlt : i - 1 < ratings.length) (hbig : 8 ≤ i) :
    noWcTerm ratings gw fh i = .error .domainError := by
  have hq : ratings.get? (i - 1) = some (ratings.get ⟨i - 1, hlt⟩) := List.get?_eq_get hlt
  rw [noWcTerm, if_neg hif, show ratingAt ratings i = .ok (ratings.get ⟨i - 1, hlt⟩) from
    by rw [ratingAt, hq], bindM_ok_left, if_pos hwin, if_pos (by omega)]

/-- The raw-score loop raises `math domain error` whenever `gw ≥ 8` and the
table is wide enough. -/
theorem rawScore_domain_error (ratings : List ℚ) (gw fh : ℕ) (hgw : 8 ≤ gw)
    (hlen : gw + 9 ≤ ratings.length) :
    rawScore ratings gw 0 fh = .error .domainError := by
  rw [rawScore, if_pos rfl]
  have h10 : List.range' gw 10 = gw :: (gw + 1) :: List.range' (gw + 2) 8 := by
    rw [show (10 : ℕ) = 9 + 1 from rfl, List.range'_succ,
      show (9 : ℕ) = 8 + 1 from rfl, List.range'_succ]
  rw [h10]
  by_cases hfh : gw = fh
  · have h1 : noWcTerm ratings gw fh gw = .ok 0 := by rw [noWcTerm, if_pos hfh]
    rw [mapExcept_cons_ok h1,
      mapExcept_cons_error (noWcTerm_domain_error ratings gw fh (gw + 1)
        (by omega) ⟨by omega, by omega⟩ (by omega) (by omega)), bind_error_left,
      bindM_error_left]
  · rw [mapExcept_cons_error (noWcTerm_domain_error ratings gw fh gw hfh
      ⟨le_rfl, by omega⟩ (by omega) hgw), bindM_error_left]

/-- A successful raw-map run makes the whole `get_fdr_value` call succeed. -/
theorem getFdrValue_isOk_of_raw (s : FdrState) (gw wc fh : ℕ) (raws : List ℝ)
    (h : mapExcept (fun r => rawScore r.ratings gw wc fh) s.rows = .ok raws) :
    (getFdrValue s gw wc fh).isOk = true := by
  rw [getFdrValue_eq, computeFdrScores_eq, h, bind_ok_left, bind_ok_left]
  rfl

/-- C9: with no wildcard planned, on a non-empty fixture table wide enough
for the window, `get_fdr_value` terminates normally only for `gw ≤ 7`, and
for every `gw ≥ 8` it raises a math domain error (`ln` of a non-positive
argument) instead of returning a table. -/
theorem c9_log_domain_error (rows : List FdrRow) (b : Bool) (gw fh : ℕ)
    (hne : rows ≠ []) (hgw : 1 ≤ gw)
    (hlen : ∀ r ∈ rows, gw + 9 ≤ r.ratings.length) :
    ((getFdrValue ⟨rows, b⟩ gw 0 fh).isOk = true → 1 ≤ gw ∧ gw ≤ 7) ∧
    (8 ≤ gw → getFdrValue ⟨rows, b⟩ gw 0 fh = .error .domainError) := by
  have herr : 8 ≤ gw → getFdrValue ⟨rows, b⟩ gw 0 fh = .error .domainError := by
    intro hbig
    obtain ⟨r, rs, rfl⟩ := List.exists_cons_of_ne_nil hne
    have hr : rawScore r.ratings gw 0 fh = .error .domainError :=
      rawScore_domain_error r.ratings gw fh hbig (hlen r (List.mem_cons_self r rs))
    rw [getFdrValue_eq, computeFdrScores_eq,
      mapExcept_cons_error (f := fun r0 : FdrRow => rawScore r0.ratings gw 0 fh) hr,
      bind_error_left, bind_error_left]
  refine ⟨?_, herr⟩
  intro hok
  refine ⟨hgw, ?_⟩
  by_contra hgt
  rw [herr (by omega)] at hok
  cases hok

/-- C9 witness: at `gw = 8` the call raises the domain error; at `gw = 1`
it returns normally, and the theorem bounds `gw` by `7`. -/
theorem c9_log_domain_error_witness :
    getFdrValue ⟨[⟨"A", List.replicate 17 1, .nan⟩], false⟩ 8 0 0 = .error .domainError ∧
    (1 ≤ 1 ∧ 1 ≤ 7) := by
  constructor
  · exact (c9_log_domain_error [⟨"A", List.replicate 17 1, .nan⟩] false 8 0
      (by simp) (by norm_num)
      (fun r hr => by rw [List.mem_singleton] at hr; rw [hr]; simp)).2 le_rfl
  · refine (c9_log_domain_error [⟨"A", List.replicate 10 1, .nan⟩] false 1 0
      (by simp) le_rfl
      (fun r hr => by rw [List.mem_singleton] at hr; rw [hr]; simp)).1 ?_
    exact getFdrValue_isOk_of_raw _ 1 0 0 _
      (mapExcept_congr_ok (g := fun r : FdrRow => specRawScoreNoWc r.ratings 1 0) (fun r hr => by
        rw [List.mem_singleton] at hr
        rw [hr]
        exact rawScore_noWc_eq_spec (List.replicate 10 1) 1 0 le_rfl
          (fun i _ h2 _ => by omega) (by simp)))

/-! ### C3: effect of `get_fdr_value` on the stored ratings -/

theorem except_map_ok {α β : Type} (a : α) (f : α → β) :
    (Except.ok a : Except PyErr α).map f = .ok (f a) := rfl

theorem computeFdrScores_ok_length {rows : List FdrRow} {gw wc fh : ℕ}
    {scores : List NpFloat} (h : computeFdrScores rows gw wc fh = .ok scores) :
    scores.length = rows.length := by
  rw [computeFdrScores_eq] at h
  cases hm : mapExcept (fun r => rawScore r.ratings gw wc fh) rows with
  | error e => rw [hm, bind_error_left] at h; cases h
  | ok raws =>
    rw [hm, bind_ok_left] at h
    cases h
    simp [zscore_normalisation, mapExcept_ok_length hm]

theorem getFdrValue_ok_elim {s : FdrState} {gw wc fh : ℕ} {s' : FdrState}
    (h : getFdrValue s gw wc fh = .ok s') :
    ∃ scores, computeFdrScores s.rows gw wc fh = .ok scores ∧
      scores.length = s.rows.length ∧
      s' = ⟨(List.insertionSort fdrRowRel (fdrAssign s.rows scores)).map fdrRound, true⟩ := by
  rw [getFdrValue_eq] at h
  cases hc : computeFdrScores s.rows gw wc fh with
  | error e => rw [hc, bind_error_left] at h; cases h
  | ok scores =>
    rw [hc, bind_ok_left] at h
    cases h
    exact ⟨scores, rfl, computeFdrScores_ok_length hc, rfl⟩

/-- C3 (amended): a successful `get_fdr_value` call preserves each team's
rating sequence only up to rounding to two decimals — the multiset of
`(team, ratings rounded to 2 decimals)` pairs of the input is exactly the
multiset of `(team, ratings)` pairs of the stored output (row order may
change); in particular the ratings are unchanged when every rating already
has at most two decimal places. -/
theorem c3_ratings_rounded (s : FdrState) (gw wc fh : ℕ) (s' : FdrState)
    (h : getFdrValue s gw wc fh = .ok s') :
    (s'.rows.map (fun r => (r.team, r.ratings))).Perm
      (s.rows.map (fun r => (r.team, r.ratings.map round2Q))) ∧
    ((∀ r ∈ s.rows, ∀ q ∈ r.ratings, round2Q q = q) →
      (s'.rows.map (fun r => (r.team, r.ratings))).Perm
        (s.rows.map (fun r => (r.team, r.ratings)))) := by
  obtain ⟨scores, hsc, hlen, rfl⟩ := getFdrValue_ok_elim h
  have h1 : ((List.insertionSort fdrRowRel (fdrAssign s.rows scores)).map fdrRound).map
        (fun r => (r.team, r.ratings))
      = (List.insertionSort fdrRowRel (fdrAssign s.rows scores)).map
        (fun r => (r.team, r.ratings.map round2Q)) := by
    rw [List.map_map]
    rfl
  have h2 : ((List.insertionSort fdrRowRel (fdrAssign s.rows scores)).map
        (fun r => (r.team, r.ratings.map round2Q))).Perm
      ((fdrAssign s.rows scores).map (fun r => (r.team, r.ratings.map round2Q))) :=
    (List.perm_insertionSort _ _).map _
  have h3 : (fdrAssign s.rows scores).map (fun r => (r.team, r.ratings.map round2Q))
      = s.rows.map (fun r => (r.team, r.ratings.map round2Q)) := by
    rw [fdrAssign, List.map_map,
      show ((fun r : FdrRow => (r.team, r.ratings.map round2Q)) ∘
          (fun p : FdrRow × NpFloat => { p.1 with fdrVal := p.2 }))
        = ((fun r : FdrRow => (r.team, r.ratings.map round2Q)) ∘ Prod.fst) from rfl,
      ← List.map_map, List.map_fst_zip _ _ (le_of_eq hlen.symm)]
  have hperm : (((List.insertionSort fdrRowRel (fdrAssign s.rows scores)).map fdrRound).map
        (fun r => (r.team, r.ratings))).Perm
      (s.rows.map (fun r => (r.team, r.ratings.map round2Q))) := by
    rw [h1]
    exact h3 ▸ h2
  refine ⟨hperm, fun hfix => ?_⟩
  have he : s.rows.map (fun r => (r.team, r.ratings.map round2Q))
      = s.rows.map (fun r => (r.team, r.ratings)) :=
    List.map_congr_left (fun r hr => by
      have hm : r.ratings.map round2Q = r.ratings.map id :=
        List.map_congr_left (fun q hq => hfix r hr q hq)
      rw [hm, List.map_id])
  exact he ▸ hperm

/-- C3 witness: the amended theorem at the degenerate one-team state. -/
theorem c3_ratings_rounded_witness :
    (((⟨[⟨"A", [], .nan⟩], true⟩ : FdrState).rows.map (fun r => (r.team, r.ratings))).Perm
      (((⟨[⟨"A", [], .nan⟩], false⟩ : FdrState).rows.map
        (fun r => (r.team, r.ratings.map round2Q))))) :=
  (c3_ratings_rounded ⟨[⟨"A", [], .nan⟩], false⟩ 1 1 0 ⟨[⟨"A", [], .nan⟩], true⟩
    (getFdrValue_degenerate .nan false)).1

/-- C3 (counterexample): on a one-team table whose first rating is `1.239`,
`get_fdr_value` stores the rating back as `1.24` — the per-gameweek
difficulty entries are not unchanged. -/
theorem c3_counterexample :
    (getFdrValue ⟨[⟨"A", [1.239, 1, 1, 1, 1, 1, 1, 1, 1, 1], .nan⟩], false⟩ 1 0 0).map
        (fun s => s.rows.map (fun r => r.ratings))
      = .ok [[1.24, 1, 1, 1, 1, 1, 1, 1, 1, 1]] ∧
    ([[(1.24 : ℚ), 1, 1, 1, 1, 1, 1, 1, 1, 1]] : List (List ℚ))
      ≠ [[(1.239 : ℚ), 1, 1, 1, 1, 1, 1, 1, 1, 1]] := by
  constructor
  · have hr10 : rawScore [1.239, 1, 1, 1, 1, 1, 1, 1, 1, 1] 1 0 0
        = .ok (specRawScoreNoWc [1.239, 1, 1, 1, 1, 1, 1, 1, 1, 1] 1 0) :=
      rawScore_noWc_eq_spec _ 1 0 le_rfl (fun i _ h2 _ => by omega) (by simp)
    have hmap := mapExcept_congr_ok
      (f := fun r : FdrRow => rawScore r.ratings 1 0 0)
      (g := fun r : FdrRow => specRawScoreNoWc r.ratings 1 0)
      (l := [⟨"A", [1.239, 1, 1, 1, 1, 1, 1, 1, 1, 1], .nan⟩])
      (fun r hr => by rw [List.mem_singleton] at hr; rw [hr]; exact hr10)
    have hscores : computeFdrScores [⟨"A", [1.239, 1, 1, 1, 1, 1, 1, 1, 1, 1], .nan⟩] 1 0 0
        = .ok [.nan] := by
      rw [computeFdrScores_eq, hmap, bind_ok_left,
        show ([(⟨"A", [1.239, 1, 1, 1, 1, 1, 1, 1, 1, 1], .nan⟩ : FdrRow)]).map
            (fun r => specRawScoreNoWc r.ratings 1 0)
          = [specRawScoreNoWc [1.239, 1, 1, 1, 1, 1, 1, 1, 1, 1] 1 0] from rfl,
        zscore_singleton, List.map_singleton, remap_nan]
    rw [getFdrValue_eq, hscores, bind_ok_left, except_map_ok]
    simp only [fdrAssign, List.insertionSort, List.orderedInsert, List.zip, List.zipWith,
      List.map, fdrRound]
    norm_num [round2Q, roundHalfEvenQ, Int.fract, round_eq]
  · norm_num

/-! ### Evaluation of `get_fdr_value` on two-team tables -/

theorem round2Q_intCast (n : ℤ) : round2Q ((n : ℚ)) = (n : ℚ) := by
  rw [round2Q, roundHalfEvenQ, show (100 : ℚ) * (n : ℚ) = ((100 * n : ℤ) : ℚ) by push_cast; ring,
    Int.fract_intCast, if_neg (by norm_num), round_intCast]
  push_cast
  ring

theorem round2Q_one : round2Q 1 = 1 := by
  simpa using round2Q_intCast 1

theorem round2Q_two : round2Q 2 = 2 := by
  simpa using round2Q_intCast 2

theorem avGetFdrValue_eq (fdrS : FdrState) (gw wc fh : ℕ) (team : String) :
    avGetFdrValue fdrS gw wc fh team =
      Bind.bind (getFdrValue fdrS gw wc fh) (fun s' =>
        Bind.bind (getFdrValueByTeam s' team) (fun v => .ok (v, s'))) := rfl

/-- Two-team evaluation, distinct raw scores (first team harder): row order
flips, stored scores are the roundings of `4.5` and `5.5`. -/
theorem getFdrValue_pair_gt (tA tB : String) (ra rb : List ℚ) (v1 v2 : NpFloat) (b : Bool)
    (hlenA : 10 ≤ ra.length) (hlenB : 10 ≤ rb.length)
    (hgt : specRawScoreNoWc rb 1 0 < specRawScoreNoWc ra 1 0) :
    getFdrValue ⟨[⟨tA, ra, v1⟩, ⟨tB, rb, v2⟩], b⟩ 1 0 0
      = .ok ⟨[⟨tB, rb.map round2Q, .fin (round2R (-(-1 / 2) + 5))⟩,
              ⟨tA, ra.map round2Q, .fin (round2R (-(1 / 2) + 5))⟩], true⟩ := by
  have hA : rawScore ra 1 0 0 = .ok (specRawScoreNoWc ra 1 0) :=
    rawScore_noWc_eq_spec ra 1 0 le_rfl (fun i _ h2 _ => by omega) (by omega)
  have hB : rawScore rb 1 0 0 = .ok (specRawScoreNoWc rb 1 0) :=
    rawScore_noWc_eq_spec rb 1 0 le_rfl (fun i _ h2 _ => by omega) (by omega)
  have hmap : mapExcept (fun r => rawScore r.ratings 1 0 0)
        [(⟨tA, ra, v1⟩ : FdrRow), ⟨tB, rb, v2⟩]
      = .ok [specRawScoreNoWc ra 1 0, specRawScoreNoWc rb 1 0] :=
    mapExcept_congr_ok (f := fun r : FdrRow => rawScore r.ratings 1 0 0)
      (g := fun r : FdrRow => specRawScoreNoWc r.ratings 1 0)
      (fun r hr => by
        rcases List.mem_cons.1 hr with h | h
        · rw [h]; exact hA
        · rw [List.mem_singleton] at h; rw [h]; exact hB)
  have hscores : computeFdrScores [(⟨tA, ra, v1⟩ : FdrRow), ⟨tB, rb, v2⟩] 1 0 0
      = .ok [.fin (-(1 / 2) + 5), .fin (-(-1 / 2) + 5)] := by
    rw [computeFdrScores_eq, hmap, bind_ok_left, zscore_pair_gt hgt]
    rw [show (([.fin 1, .fin (-1)] : List NpFloat).map remapNp)
        = [remapNp (.fin 1), remapNp (.fin (-1))] from rfl, remap_fin, remap_fin]
  have hrel : ¬ fdrRowRel (⟨tA, ra, .fin (-(1 / 2) + 5)⟩ : FdrRow)
      ⟨tB, rb, .fin (-(-1 / 2) + 5)⟩ := by
    simp only [fdrRowRel, npDescBefore]
    norm_num
  rw [getFdrValue_eq, hscores, bind_ok_left]
  rw [show fdrAssign [(⟨tA, ra, v1⟩ : FdrRow), ⟨tB, rb, v2⟩]
        [.fin (-(1 / 2) + 5), .fin (-(-1 / 2) + 5)]
      = [⟨tA, ra, .fin (-(1 / 2) + 5)⟩, ⟨tB, rb, .fin (-(-1 / 2) + 5)⟩] from rfl]
  rw [show List.insertionSort fdrRowRel
        [(⟨tA, ra, .fin (-(1 / 2) + 5)⟩ : FdrRow), ⟨tB, rb, .fin (-(-1 / 2) + 5)⟩]
      = List.orderedInsert fdrRowRel ⟨tA, ra, .fin (-(1 / 2) + 5)⟩
          [⟨tB, rb, .fin (-(-1 / 2) + 5)⟩] from rfl,
    List.orderedInsert, if_neg hrel, List.orderedInsert]
  rfl

/-- Two-team evaluation with equal raw scores: zero standard deviation,
both stored scores NaN, row order preserved. -/
theorem getFdrValue_pair_eq_scores (tA tB : String) (ra rb : List ℚ) (v1 v2 : NpFloat)
    (b : Bool) (hlenA : 10 ≤ ra.length) (hlenB : 10 ≤ rb.length)
    (heq : specRawScoreNoWc ra 1 0 = specRawScoreNoWc rb 1 0) :
    getFdrValue ⟨[⟨tA, ra, v1⟩, ⟨tB, rb, v2⟩], b⟩ 1 0 0
      = .ok ⟨[⟨tA, ra.map round2Q, .nan⟩, ⟨tB, rb.map round2Q, .nan⟩], true⟩ := by
  have hA : rawScore ra 1 0 0 = .ok (specRawScoreNoWc ra 1 0) :=
    rawScore_noWc_eq_spec ra 1 0 le_rfl (fun i _ h2 _ => by omega) (by omega)
  have hB : rawScore rb 1 0 0 = .ok (specRawScoreNoWc rb 1 0) :=
    rawScore_noWc_eq_spec rb 1 0 le_rfl (fun i _ h2 _ => by omega) (by omega)
  have hmap : mapExcept (fun r => rawScore r.ratings 1 0 0)
        [(⟨tA, ra, v1⟩ : FdrRow), ⟨tB, rb, v2⟩]
      = .ok [specRawScoreNoWc ra 1 0, specRawScoreNoWc rb 1 0] :=
    mapExcept_congr_ok (f := fun r : FdrRow => rawScore r.ratings 1 0 0)
      (g := fun r : FdrRow => specRawScoreNoWc r.ratings 1 0)
      (fun r hr => by
        rcases List.mem_cons.1 hr with h | h
        · rw [h]; exact hA
        · rw [List.mem_singleton] at h; rw [h]; exact hB)
  have hscores : computeFdrScores [(⟨tA, ra, v1⟩ : FdrRow), ⟨tB, rb, v2⟩] 1 0 0
      = .ok [.nan, .nan] := by
    rw [computeFdrScores_eq, hmap, bind_ok_left, heq, zscore_pair_eq]
    rfl
  have hrel : fdrRowRel (⟨tA, ra, (.nan : NpFloat)⟩ : FdrRow) ⟨tB, rb, .nan⟩ := by
    simp [fdrRowRel, npDescBefore]
  rw [getFdrValue_eq, hscores, bind_ok_left]
  rw [show fdrAssign [(⟨tA, ra, v1⟩ : FdrRow), ⟨tB, rb, v2⟩] [.nan, .nan]
      = [⟨tA, ra, .nan⟩, ⟨tB, rb, .nan⟩] from rfl]
  rw [show List.insertionSort fdrRowRel [(⟨tA, ra, (.nan : NpFloat)⟩ : FdrRow), ⟨tB, rb, .nan⟩]
      = List.orderedInsert fdrRowRel ⟨tA, ra, .nan⟩ [⟨tB, rb, .nan⟩] from rfl,
    List.orderedInsert, if_pos hrel]
  rfl

/-- The rounded value stored for the easier of two teams: `5.5`. -/
theorem round2R_five_five : round2R (-(-1 / 2 : ℝ) + 5) = 11 / 2 := by
  rw [show (-(-1 / 2 : ℝ) + 5) = ((11 / 2 : ℚ) : ℝ) by norm_num, round2R_ratCast,
    show round2Q (11 / 2) = 11 / 2 by norm_num [round2Q, roundHalfEvenQ, Int.fract, round_eq]]
  norm_num

/-- The rounded value stored for the harder of two teams: `4.5`. -/
theorem round2R_four_five : round2R (-(1 / 2 : ℝ) + 5) = 9 / 2 := by
  rw [show (-(1 / 2 : ℝ) + 5) = ((9 / 2 : ℚ) : ℝ) by norm_num, round2R_ratCast,
    show round2Q (9 / 2) = 9 / 2 by norm_num [round2Q, roundHalfEvenQ, Int.fract, round_eq]]
  norm_num

/-! ### Concrete fixture data for the pipeline evaluations -/

/-- Ten all-ones difficulty ratings. -/
def gwOnes : List ℚ := [1, 1, 1, 1, 1, 1, 1, 1, 1, 1]

/-- Ten ratings with a harder seventh fixture. -/
def gwBump2 : List ℚ := [1, 1, 1, 1, 1, 1, 2, 1, 1, 1]

/-- Ten ratings with a three-decimal seventh entry (changed by `round(2)`). -/
def gwBump1002 : List ℚ := [1, 1, 1, 1, 1, 1, 1.002, 1, 1, 1]

theorem map_round2Q_gwOnes : gwOnes.map round2Q = gwOnes := by
  simp [gwOnes, round2Q_one]

theorem map_round2Q_gwBump2 : gwBump2.map round2Q = gwBump2 := by
  simp [gwBump2, round2Q_one, round2Q_two]

theorem map_round2Q_gwBump1002 : gwBump1002.map round2Q = gwOnes := by
  simp only [gwBump1002, gwOnes, List.map_cons, List.map_nil, round2Q_one]
  norm_num [round2Q, roundHalfEvenQ, Int.fract, round_eq]

theorem bump2_score_gt : specRawScoreNoWc gwOnes 1 0 < specRawScoreNoWc gwBump2 1 0 := by
  rw [← sub_pos, specRawScoreNoWc, specRawScoreNoWc, ← Finset.sum_sub_distrib,
    show (1 + 9 : ℕ) = 10 from rfl,
    show Finset.Icc (1 : ℕ) 10 = Finset.Ico (1 : ℕ) 11 from (Nat.Ico_succ_right 1 10).symm,
    Finset.sum_Ico_eq_sum_range]
  simp only [Finset.sum_range_succ, Finset.sum_range_zero]
  norm_num [specNoWcWeight, List.getD, gwOnes, gwBump2]

theorem bump1002_score_gt : specRawScoreNoWc gwOnes 1 0 < specRawScoreNoWc gwBump1002 1 0 := by
  rw [← sub_pos, specRawScoreNoWc, specRawScoreNoWc, ← Finset.sum_sub_distrib,
    show (1 + 9 : ℕ) = 10 from rfl,
    show Finset.Icc (1 : ℕ) 10 = Finset.Ico (1 : ℕ) 11 from (Nat.Ico_succ_right 1 10).symm,
    Finset.sum_Ico_eq_sum_range]
  simp only [Finset.sum_range_succ, Finset.sum_range_zero]
  norm_num [specNoWcWeight, List.getD, gwOnes, gwBump1002]

/-! ### Unfolding equations for the goalkeeper pipeline -/

theorem gkLoop_nil (cs : CleanSheetPointsModel) (fdrS : FdrState) (gw wc fh : ℕ) :
    gkLoop cs fdrS gw wc fh [] = .ok ([], cs, fdrS) := rfl

theorem gkLoop_cons (cs : CleanSheetPointsModel) (fdrS : FdrState) (gw wc fh : ℕ)
    (r : GkRow) (rs : List GkRow) :
    gkLoop cs fdrS gw wc fh (r :: rs) =
      Bind.bind (cs.predict (r.xGCp90 : ℝ)) (fun pcs =>
        Bind.bind (avGetFdrValue fdrS gw wc fh r.team) (fun pf =>
          Bind.bind (gkLoop pcs.2 pf.2 gw wc fh rs) (fun rest =>
            .ok ((gkXpts pcs.1 r, pf.1,
                npAssetValue (gkXpts pcs.1 r) pf.1 (r.price : ℝ)) :: rest.1,
              rest.2.1, rest.2.2)))) := rfl

theorem getAssetValueGk_eq (A : AssetValueModel) (gw wc fh : ℕ) :
    getAssetValueGk A gw wc fh =
      Bind.bind (gkLoop A.cs_gk_def A.fdr_value_model gw wc fh A.goalkeepers) (fun res =>
        .ok (updateDf A.goalkeepers res.1,
          ⟨updateDf A.goalkeepers res.1, res.2.2, res.2.1⟩)) := rfl

theorem updateDf_singleton (r : GkRow) (t : ℝ × NpFloat × NpFloat) :
    updateDf [r] [t] =
      [{ r with xPts := some t.1, fdrV := some t.2.1, value := some t.2.2 }] := rfl

theorem updateDf_nil (ts : List (ℝ × NpFloat × NpFloat)) : updateDf [] ts = [] := rfl

/-- The constant-zero predictor used in the concrete pipeline runs (the
external fitting procedure abstracted by the constant-zero function). -/
def csZero : CleanSheetPointsModel := CleanSheetPointsModel.init [] [] (fun _ _ _ => 0)

theorem csZero_predict (x : ℝ) : csZero.predict x = .ok (0, csZero.train_model) := rfl

theorem csZero_trained_predict (x : ℝ) :
    csZero.train_model.predict x = .ok (0, csZero.train_model) := rfl

theorem npAssetValue_fin (x f p : ℝ) (hp : p ^ (0.25 : ℝ) ≠ 0) :
    npAssetValue x (.fin f) p = .fin ((12 * x + 8 * f) / p ^ (0.25 : ℝ)) := by
  rw [npAssetValue, npMulR, npAddR, npDivR, npDiv, if_neg hp]

theorem npAssetValue_nan (x p : ℝ) : npAssetValue x .nan p = .nan := rfl

theorem qone_rpow_quarter : ((1 : ℚ) : ℝ) ^ (0.25 : ℝ) = 1 := by
  rw [show ((1 : ℚ) : ℝ) = 1 by norm_num, Real.one_rpow]

/-! ### C2: `update_df` discards the result of `df.round(2)` -/

/-- A concrete goalkeeper row: team "B", price 1, `BPS p/match` `0.0001`. -/
def gkRowB : GkRow :=
  { player := "P", team := "B", price := 1, xGCp90 := 0, saves := 0, bps := 1 / 10000, yc := 0 }

theorem gkRowB_xpts : gkXpts 0 gkRowB = 20001 / 10000 := by
  simp [gkXpts, gkRowB]
  norm_num

theorem gkRowB_rpow : ((gkRowB.price : ℚ) : ℝ) ^ (0.25 : ℝ) = 1 := by
  simp [gkRowB, Real.one_rpow]

theorem gkRowB_value :
    npAssetValue ((20001 : ℝ) / 10000) (.fin (11 / 2)) ((gkRowB.price : ℚ) : ℝ)
      = .fin ((680012 : ℝ) / 10000) := by
  rw [npAssetValue_fin _ _ _ (by rw [gkRowB_rpow]; norm_num), gkRowB_rpow]
  norm_num

/-- The fixture state stored after the first FDR computation of the C2 run. -/
noncomputable def sB1 : FdrState :=
  ⟨[⟨"B", gwOnes, .fin (11 / 2)⟩, ⟨"A", gwBump2, .fin (9 / 2)⟩], true⟩

/-- The single output row of the C2 run: three derived cells appended, the
composite value unrounded. -/
noncomputable def gkOutB : GkRow :=
  { gkRowB with
    xPts := some ((20001 : ℝ) / 10000)
    fdrV := some (.fin (11 / 2))
    value := some (.fin ((680012 : ℝ) / 10000)) }

/-- C2 (code bug evaluation): running the goalkeeper pipeline on a concrete
one-goalkeeper table leaves an unrounded composite value `68.0012` in the
returned table — `update_df` computes `df.round(2)` but discards the result,
so, contrary to its own docstring and the spec, no value is rounded to two
decimals. -/
theorem c2_round_discarded :
    ∃ (out : List GkRow) (A' : AssetValueModel),
      getAssetValueGk ⟨[gkRowB], ⟨[⟨"A", gwBump2, .nan⟩, ⟨"B", gwOnes, .nan⟩], false⟩, csZero⟩
          1 0 0 = .ok (out, A') ∧
      out.map (fun r => r.value) = [some (.fin ((680012 : ℝ) / 10000))] ∧
      round2R ((680012 : ℝ) / 10000) ≠ (680012 : ℝ) / 10000 := by
  have hs1 := getFdrValue_pair_gt "A" "B" gwBump2 gwOnes .nan .nan false
    (by simp [gwBump2]) (by simp [gwOnes]) bump2_score_gt
  rw [map_round2Q_gwOnes, map_round2Q_gwBump2, round2R_five_five, round2R_four_five] at hs1
  have hs1' : getFdrValue ⟨[⟨"A", gwBump2, .nan⟩, ⟨"B", gwOnes, .nan⟩], false⟩ 1 0 0
      = .ok sB1 := hs1
  have hlook : getFdrValueByTeam sB1 "B" = .ok (.fin (11 / 2)) := by
    rw [sB1, getFdrValueByTeam]
    simp [List.find?]
  have hAv : avGetFdrValue ⟨[⟨"A", gwBump2, .nan⟩, ⟨"B", gwOnes, .nan⟩], false⟩ 1 0 0 "B"
      = .ok (.fin (11 / 2), sB1) := by
    rw [avGetFdrValue_eq, hs1', bindM_ok_left, hlook, bindM_ok_left]
  have hloop : gkLoop csZero ⟨[⟨"A", gwBump2, .nan⟩, ⟨"B", gwOnes, .nan⟩], false⟩ 1 0 0 [gkRowB]
      = .ok ([((20001 : ℝ) / 10000, .fin (11 / 2), .fin ((680012 : ℝ) / 10000))],
          csZero.train_model, sB1) := by
    rw [gkLoop_cons, show gkRowB.team = "B" from rfl, csZero_predict, bindM_ok_left, hAv,
      bindM_ok_left, gkLoop_nil, bindM_ok_left]
    simp only [gkRowB_xpts, gkRowB_value]
  refine ⟨[gkOutB], ⟨[gkOutB], sB1, csZero.train_model⟩, ?_, ?_, ?_⟩
  · rw [getAssetValueGk_eq]
    simp only [hloop, bindM_ok_left, updateDf_singleton]
    simp [gkOutB]
  · simp [gkOutB]
  · rw [show ((680012 : ℝ) / 10000) = ((680012 / 10000 : ℚ) : ℝ) by norm_num, round2R_ratCast,
      show round2Q (680012 / 10000) = 68 by
        norm_num [round2Q, roundHalfEvenQ, Int.fract, round_eq]]
    norm_num

/-! ### C4: idempotence of the pipeline -/

theorem mapExcept_ok_mem {α β : Type} {f : α → Except PyErr β} :
    ∀ {l : List α} {out : List β}, mapExcept f l = .ok out → ∀ a ∈ l, ∃ b, f a = .ok b := by
  intro l
  induction l with
  | nil => intro out _ a ha; cases ha
  | cons a0 l ih =>
    intro out h a ha
    rw [mapExcept_cons] at h
    cases hfa : f a0 with
    | error e => rw [hfa, bind_error_left] at h; cases h
    | ok b =>
      rw [hfa, bind_ok_left] at h
      cases hfl : mapExcept f l with
      | error e => rw [hfl, bind_error_left] at h; cases h
      | ok bs =>
        rcases List.mem_cons.1 ha with rfl | ha'
        · exact ⟨b, hfa⟩
        · exact ih hfl a ha'

theorem mapExcept_ok_values {α β : Type} {f : α → Except PyErr β} (d : β) :
    ∀ {l : List α} {out : List β}, mapExcept f l = .ok out →
      out = l.map (fun a => ((f a).toOption).getD d) := by
  intro l
  induction l with
  | nil => intro out h; rw [mapExcept_nil] at h; cases h; rfl
  | cons a l ih =>
    intro out h
    rw [mapExcept_cons] at h
    cases hfa : f a with
    | error e => rw [hfa, bind_error_left] at h; cases h
    | ok b =>
      rw [hfa, bind_ok_left] at h
      cases hfl : mapExcept f l with
      | error e => rw [hfl, bind_error_left] at h; cases h
      | ok bs =>
        rw [hfl, bind_ok_left] at h
        cases h
        rw [List.map_cons, ← ih hfl, hfa]
        rfl

theorem npMean_perm {l l' : List ℝ} (h : l.Perm l') : npMean l = npMean l' := by
  rw [npMean, npMean, h.sum_eq, h.length_eq]

theorem npStd_perm {l l' : List ℝ} (h : l.Perm l') : npStd l = npStd l' := by
  rw [npStd, npStd, npMean_perm h, (h.map _).sum_eq, h.length_eq]

/-- A successful `get_fdr_value` call on a table whose ratings are fixed by
two-decimal rounding reaches a fixpoint: running it again returns the same
stored table unchanged. -/
theorem getFdrValue_idem (s : FdrState) (gw wc fh : ℕ)
    (hfix : ∀ r ∈ s.rows, ∀ q ∈ r.ratings, round2Q q = q)
    (s' : FdrState) (h : getFdrValue s gw wc fh = .ok s') :
    getFdrValue s' gw wc fh = .ok s' := by
  obtain ⟨scores, hsc, hslen, rfl⟩ := getFdrValue_ok_elim h
  rw [computeFdrScores_eq] at hsc
  cases hm : mapExcept (fun r => rawScore r.ratings gw wc fh) s.rows with
  | error e => rw [hm, bind_error_left] at hsc; cases hsc
  | ok raws =>
  rw [hm, bind_ok_left] at hsc
  have hscores : scores = (zscore_normalisation raws).map remapNp := by
    cases hsc; rfl
  subst hscores
  -- the pure per-row raw score and per-row stored score
  have hraws : raws = s.rows.map (fun r => ((rawScore r.ratings gw wc fh).toOption).getD 0) :=
    mapExcept_ok_values 0 hm
  set R : FdrRow → ℝ := fun r => ((rawScore r.ratings gw wc fh).toOption).getD 0 with hR
  set SC : FdrRow → NpFloat := fun r =>
    remapNp (npDiv (R r - npMean (s.rows.map R)) (npStd (s.rows.map R))) with hSC
  have hscoresS : (zscore_normalisation raws).map remapNp = s.rows.map SC := by
    rw [hraws, zscore_normalisation, List.map_map, List.map_map]
    rfl
  -- call-1 intermediate lists
  have hassign : fdrAssign s.rows (s.rows.map SC)
      = s.rows.map (fun r => { r with fdrVal := SC r }) := by
    rw [fdrAssign, zip_self_map, List.map_map]
    rfl
  set rows1 : List FdrRow := s.rows.map (fun r => { r with fdrVal := SC r }) with hrows1
  set rows2 : List FdrRow := List.insertionSort fdrRowRel rows1 with hrows2
  have hshape : ∀ r2 ∈ rows2, ∃ orig ∈ s.rows, { orig with fdrVal := SC orig } = r2 := by
    intro r2 hr2
    rw [hrows2, List.mem_insertionSort, hrows1, List.mem_map] at hr2
    exact hr2
  -- rounding only touches the stored score: ratings are 2dp-fixed
  have hround_eq : rows2.map fdrRound
      = rows2.map (fun r => { r with fdrVal := round2Np r.fdrVal }) := by
    refine List.map_congr_left (fun r2 hr2 => ?_)
    obtain ⟨orig, horig, hor⟩ := hshape r2 hr2
    have hrat : r2.ratings.map round2Q = r2.ratings := by
      have : ∀ q ∈ r2.ratings, round2Q q = q := by
        intro q hq
        refine hfix orig horig q ?_
        rw [← hor] at hq
        exact hq
      rw [List.map_congr_left this, List.map_id']
    rw [fdrRound]
    cases r2 with
    | mk t rs v => simp only at hrat ⊢; rw [hrat]
  -- the goal, with the final rounding normalised
  rw [show (List.insertionSort fdrRowRel (fdrAssign s.rows
      ((zscore_normalisation raws).map remapNp))).map fdrRound
    = rows2.map (fun r => { r with fdrVal := round2Np r.fdrVal }) from by
      rw [hscoresS, hassign, ← hrows2, hround_eq]]
  set T : List FdrRow := rows2.map (fun r => { r with fdrVal := round2Np r.fdrVal }) with hT
  -- raw scores of the stored table: same values, permuted
  have hTmem : ∀ r ∈ T, ∃ r2 ∈ rows2, { r2 with fdrVal := round2Np r2.fdrVal } = r := by
    intro r hr
    rw [hT, List.mem_map] at hr
    exact hr
  have hmem1 : ∀ r ∈ s.rows, ∃ x, rawScore r.ratings gw wc fh = .ok x := mapExcept_ok_mem hm
  have hmapT : mapExcept (fun r => rawScore r.ratings gw wc fh) T = .ok (T.map R) := by
    refine mapExcept_congr_ok (fun r hr => ?_)
    obtain ⟨r2, hr2, hrr⟩ := hTmem r hr
    obtain ⟨orig, horig, hor⟩ := hshape r2 hr2
    obtain ⟨x, hx⟩ := hmem1 orig horig
    have hrat : r.ratings = orig.ratings := by rw [← hrr, ← hor]
    have hcall : rawScore r.ratings gw wc fh = .ok x := by rw [hrat]; exact hx
    have hRx : R r = x := by
      show ((rawScore r.ratings gw wc fh).toOption).getD 0 = x
      rw [hcall]
      rfl
    rw [hcall, hRx]
  have hTpermR : (T.map R).Perm (s.rows.map R) := by
    have h1 : T.map R = rows2.map R := by
      rw [hT, List.map_map]
      rfl
    have h2 : rows1.map R = s.rows.map R := by
      rw [hrows1, List.map_map]
      rfl
    rw [h1, ← h2]
    exact (List.perm_insertionSort fdrRowRel rows1).map R
  -- second-call scores: identical stored per-row scores
  have hmuT : npMean (T.map R) = npMean (s.rows.map R) := npMean_perm hTpermR
  have hstdT : npStd (T.map R) = npStd (s.rows.map R) := npStd_perm hTpermR
  have hscoresT : (zscore_normalisation (T.map R)).map remapNp = T.map SC := by
    rw [zscore_normalisation, List.map_map, List.map_map]
    simp only [hmuT, hstdT]
    rfl
  -- the second assignment restores the pre-rounding sorted rows
  have hassignT : fdrAssign T (T.map SC) = rows2 := by
    rw [fdrAssign, zip_self_map, List.map_map, hT, List.map_map]
    refine List.map_congr_left (fun r2 hr2 => ?_) |>.trans (List.map_id rows2)
    obtain ⟨orig, horig, hor⟩ := hshape r2 hr2
    rw [← hor]
    rfl
  have hsorted2 : List.Sorted fdrRowRel rows2 := List.sorted_insertionSort fdrRowRel rows1
  rw [getFdrValue_eq, computeFdrScores_eq, hmapT, bind_ok_left, bind_ok_left, hscoresT,
    hassignT, hsorted2.insertionSort_eq, hround_eq]

theorem mapExcept_ok_zip {α β : Type} {f : α → Except PyErr β} :
    ∀ {l : List α} {out : List β}, mapExcept f l = .ok out →
      ∀ p ∈ l.zip out, f p.1 = .ok p.2 := by
  intro l
  induction l with
  | nil => intro out _ p hp; cases hp
  | cons a l ih =>
    intro out h p hp
    rw [mapExcept_cons] at h
    cases hfa : f a with
    | error e => rw [hfa, bind_error_left] at h; cases h
    | ok b =>
      rw [hfa, bind_ok_left] at h
      cases hfl : mapExcept f l with
      | error e => rw [hfl, bind_error_left] at h; cases h
      | ok bs =>
        rw [hfl, bind_ok_left] at h
        cases h
        rcases List.mem_cons.1 hp with rfl | hp'
        · exact hfa
        · exact ih hfl p hp'

/-- Shape of a successful prediction: the resulting model state carries a
fitted pipeline `f`, is trained, produced the value `f x`, and every later
prediction on that state returns `f y` without changing the state. -/
theorem predict_ok_shape {m : CleanSheetPointsModel} {x v : ℝ} {m' : CleanSheetPointsModel}
    (h : m.predict x = .ok (v, m')) :
    ∃ f, m'.fitted = some f ∧ m'.is_trained = true ∧ v = f x ∧
      (∀ y, m'.predict y = .ok (f y, m')) := by
  cases ht : m.is_trained
  · have hm1 : m.predict x = .ok (m.fitProc m.x_data m.y_data x, m.train_model) := by
      simp [CleanSheetPointsModel.predict, ht, CleanSheetPointsModel.train_model]
    rw [hm1] at h
    obtain ⟨hv, hm'⟩ := Prod.mk.injEq .. ▸ Except.ok.inj h
    refine ⟨m.fitProc m.x_data m.y_data, ?_, ?_, hv.symm, ?_⟩
    · rw [← hm']; rfl
    · rw [← hm']; rfl
    · intro y
      rw [← hm']
      simp [CleanSheetPointsModel.predict, CleanSheetPointsModel.train_model]
  · cases hf : m.fitted with
    | none =>
      have herr : m.predict x = .error .notFittedError := by
        simp [CleanSheetPointsModel.predict, ht, hf]
      rw [herr] at h
      cases h
    | some f =>
      have hm1 : m.predict x = .ok (f x, m) := by
        simp [CleanSheetPointsModel.predict, ht, hf]
      rw [hm1] at h
      obtain ⟨hv, hm'⟩ := Prod.mk.injEq .. ▸ Except.ok.inj h
      refine ⟨f, ?_, ?_, hv.symm, ?_⟩
      · rw [← hm']; exact hf
      · rw [← hm']; exact ht
      · intro y
        rw [← hm']
        simp [CleanSheetPointsModel.predict, ht, hf]

/-- Shape of a successful prediction (doc above). -/
theorem avGetFdrValue_ok_elim {fdrS : FdrState} {gw wc fh : ℕ} {team : String}
    {v : NpFloat} {s' : FdrState} (h : avGetFdrValue fdrS gw wc fh team = .ok (v, s')) :
    getFdrValue fdrS gw wc fh = .ok s' ∧ getFdrValueByTeam s' team = .ok v := by
  rw [avGetFdrValue_eq] at h
  cases hg : getFdrValue fdrS gw wc fh with
  | error e => rw [hg, bindM_error_left] at h; cases h
  | ok s1 =>
    rw [hg, bindM_ok_left] at h
    cases hl : getFdrValueByTeam s1 team with
    | error e => rw [hl, bindM_error_left] at h; cases h
    | ok v1 =>
      rw [hl, bindM_ok_left] at h
      cases h
      exact ⟨rfl, hl⟩

/-- The per-row computation of the goalkeeper loop once the clean-sheet
model is stable with pipeline `f` and the FDR state is a fixpoint. -/
noncomputable def rowTriple (f : ℝ → ℝ) (s1 : FdrState) (r : GkRow) :
    Except PyErr (ℝ × NpFloat × NpFloat) :=
  (getFdrValueByTeam s1 r.team).bind (fun v =>
    .ok (gkXpts (f (r.xGCp90 : ℝ)) r, v,
      npAssetValue (gkXpts (f (r.xGCp90 : ℝ)) r) v (r.price : ℝ)))

/-- The derived cells stored in a row by `update_df`. -/
noncomputable def storedTriple (r : GkRow) : ℝ × NpFloat × NpFloat :=
  (r.xPts.getD 0, r.fdrV.getD .nan, r.value.getD .nan)

/-- In the stable regime (trained predictor, FDR fixpoint state) the loop is
a plain `mapExcept` of the per-row computation. -/
theorem gkLoop_stable_eq (gw wc fh : ℕ) (f : ℝ → ℝ) (cs : CleanSheetPointsModel)
    (hcs : ∀ y, cs.predict y = .ok (f y, cs)) (s1 : FdrState)
    (hs1 : getFdrValue s1 gw wc fh = .ok s1) :
    ∀ rows : List GkRow, gkLoop cs s1 gw wc fh rows
      = (mapExcept (rowTriple f s1) rows).bind (fun ts => .ok (ts, cs, s1))
  | [] => by rw [gkLoop_nil, mapExcept_nil, bind_ok_left]
  | r :: rs => by
    rw [gkLoop_cons, hcs, bindM_ok_left, avGetFdrValue_eq, hs1, bindM_ok_left]
    cases hv : getFdrValueByTeam s1 r.team with
    | error e =>
      rw [bindM_error_left, bindM_error_left, mapExcept_cons,
        show rowTriple f s1 r = .error e from by rw [rowTriple, hv, bind_error_left],
        bind_error_left, bind_error_left]
    | ok v =>
      rw [bindM_ok_left, bindM_ok_left, gkLoop_stable_eq gw wc fh f cs hcs s1 hs1 rs,
        mapExcept_cons,
        show rowTriple f s1 r = .ok (gkXpts (f (r.xGCp90 : ℝ)) r, v,
            npAssetValue (gkXpts (f (r.xGCp90 : ℝ)) r) v (r.price : ℝ)) from
          by rw [rowTriple, hv, bind_ok_left],
        bind_ok_left]
      cases hm : mapExcept (rowTriple f s1) rs with
      | error e => rfl
      | ok ts => rfl

/-- C4 (amended): when every fixture difficulty rating is unchanged by
two-decimal rounding, the goalkeeper asset-value computation is idempotent:
a second call with the same `(gw, wc_gw, fh_gw)` on the state left by a
successful first call returns exactly the same output table and the same
model state. -/
theorem c4_idempotent_when_ratings_2dp (A : AssetValueModel) (gw wc fh : ℕ)
    (hfix : ∀ r ∈ A.fdr_value_model.rows, ∀ q ∈ r.ratings, round2Q q = q)
    (out : List GkRow) (A' : AssetValueModel)
    (h : getAssetValueGk A gw wc fh = .ok (out, A')) :
    getAssetValueGk A' gw wc fh = .ok (out, A') := by
  rw [getAssetValueGk_eq] at h
  cases hl : gkLoop A.cs_gk_def A.fdr_value_model gw wc fh A.goalkeepers with
  | error e => rw [hl, bindM_error_left] at h; cases h
  | ok res =>
  rw [hl, bindM_ok_left] at h
  obtain ⟨hout, hA'⟩ := Prod.mk.injEq .. ▸ Except.ok.inj h
  cases hrows : A.goalkeepers with
  | nil =>
    rw [hrows, gkLoop_nil] at hl
    cases hl
    rw [getAssetValueGk_eq, ← hA', ← hout]
    simp only [hrows, updateDf_nil, gkLoop_nil, bindM_ok_left]
  | cons r rs =>
  rw [hrows, gkLoop_cons] at hl
  cases hp : A.cs_gk_def.predict ((r.xGCp90 : ℚ) : ℝ) with
  | error e => rw [hp, bindM_error_left] at hl; cases hl
  | ok pcs =>
  rw [hp, bindM_ok_left] at hl
  cases hAv : avGetFdrValue A.fdr_value_model gw wc fh r.team with
  | error e => rw [hAv, bindM_error_left] at hl; cases hl
  | ok pf =>
  rw [hAv, bindM_ok_left] at hl
  obtain ⟨f, hfitted, htr, hval, hstable⟩ := predict_ok_shape hp
  obtain ⟨hget, hlook⟩ := avGetFdrValue_ok_elim hAv
  have hidem : getFdrValue pf.2 gw wc fh = .ok pf.2 :=
    getFdrValue_idem A.fdr_value_model gw wc fh hfix pf.2 hget
  rw [gkLoop_stable_eq gw wc fh f pcs.2 hstable pf.2 hidem rs] at hl
  cases hm : mapExcept (rowTriple f pf.2) rs with
  | error e => rw [hm, bind_error_left, bindM_error_left] at hl; cases hl
  | ok ts =>
  rw [hm, bind_ok_left, bindM_ok_left] at hl
  have hres := Except.ok.inj hl
  have hRT1 : rowTriple f pf.2 r = .ok (gkXpts pcs.1 r, pf.1,
      npAssetValue (gkXpts pcs.1 r) pf.1 (r.price : ℝ)) := by
    rw [rowTriple, hlook, bind_ok_left, ← hval]
  have hmapAll : mapExcept (rowTriple f pf.2) (r :: rs)
      = .ok ((gkXpts pcs.1 r, pf.1, npAssetValue (gkXpts pcs.1 r) pf.1 (r.price : ℝ)) :: ts) := by
    rw [mapExcept_cons, hRT1, bind_ok_left, hm, bind_ok_left]
  have hts1 : res.1 = (gkXpts pcs.1 r, pf.1,
      npAssetValue (gkXpts pcs.1 r) pf.1 (r.price : ℝ)) :: ts := by rw [← hres]
  have hcs' : res.2.1 = pcs.2 := by rw [← hres]
  have hfdr' : res.2.2 = pf.2 := by rw [← hres]
  -- the output rows and their shape
  have hout_eq : out = List.insertionSort gkRowRel
      (((r :: rs).zip (res.1)).map setTriple) := by
    rw [← hout, hrows, updateDf]
  have hshape : ∀ r' ∈ out, ∃ p ∈ (r :: rs).zip (res.1), setTriple p = r' := by
    intro r' hr'
    rw [hout_eq, List.mem_insertionSort, List.mem_map] at hr'
    exact hr'
  have hzip : ∀ p ∈ (r :: rs).zip (res.1), rowTriple f pf.2 p.1 = .ok p.2 := by
    intro p hp
    refine mapExcept_ok_zip ?_ p hp
    rw [hmapAll, hts1]
  -- the second pass recomputes exactly the stored cells
  have hmap2 : mapExcept (rowTriple f pf.2) out = .ok (out.map storedTriple) := by
    refine mapExcept_congr_ok (fun r' hr' => ?_)
    obtain ⟨p, hp, hpr⟩ := hshape r' hr'
    have h1 : rowTriple f pf.2 r' = rowTriple f pf.2 p.1 := by rw [← hpr]; rfl
    have h2 : storedTriple r' = p.2 := by rw [← hpr]; rfl
    rw [h1, h2]
    exact hzip p hp
  have hsorted : List.Sorted gkRowRel out := by
    rw [hout_eq]
    exact List.sorted_insertionSort gkRowRel _
  have hupd2 : updateDf out (out.map storedTriple) = out := by
    rw [updateDf, zip_self_map, List.map_map]
    have hptwise : out.map (setTriple ∘ fun a => (a, storedTriple a)) = out := by
      refine (List.map_congr_left (fun r' hr' => ?_)).trans (List.map_id' out)
      obtain ⟨p, hp, hpr⟩ := hshape r' hr'
      rw [← hpr]
      rfl
    rw [hptwise, hsorted.insertionSort_eq]
  rw [getAssetValueGk_eq, ← hA', ← hout]
  rw [show (⟨updateDf A.goalkeepers res.1, res.2.2, res.2.1⟩ : AssetValueModel).goalkeepers
    = updateDf A.goalkeepers res.1 from rfl]
  rw [show (⟨updateDf A.goalkeepers res.1, res.2.2, res.2.1⟩ : AssetValueModel).cs_gk_def
    = res.2.1 from rfl]
  rw [show (⟨updateDf A.goalkeepers res.1, res.2.2, res.2.1⟩ : AssetValueModel).fdr_value_model
    = res.2.2 from rfl]
  rw [hcs', hfdr']
  rw [gkLoop_stable_eq gw wc fh f pcs.2 hstable pf.2 hidem (updateDf A.goalkeepers res.1)]
  rw [show updateDf A.goalkeepers res.1 = out from hout]
  rw [hmap2, bind_ok_left, bindM_ok_left, hupd2]

/-! ### C4: witness and counterexample data -/

/-- A concrete goalkeeper row for team `"A"` with all statistics zero. -/
def gkRowA : GkRow :=
  { player := "P", team := "A", price := 1, xGCp90 := 0, saves := 0, bps := 0, yc := 0 }

theorem gkRowA_xpts : gkXpts 0 gkRowA = 2 := by
  simp [gkXpts, gkRowA]

theorem gkRowA_rpow : ((gkRowA.price : ℚ) : ℝ) ^ (0.25 : ℝ) = 1 := by
  simp [gkRowA, Real.one_rpow]

theorem gkRowA_value :
    npAssetValue (2 : ℝ) (.fin (9 / 2)) ((gkRowA.price : ℚ) : ℝ) = .fin 60 := by
  rw [npAssetValue_fin _ _ _ (by rw [gkRowA_rpow]; norm_num), gkRowA_rpow]
  norm_num

/-- The fixture state stored by the first call of the C4 run: the `1.002`
rating has been rounded to `1`, so both teams now have identical ratings. -/
noncomputable def sA1 : FdrState :=
  ⟨[⟨"B", gwOnes, .fin (11 / 2)⟩, ⟨"A", gwOnes, .fin (9 / 2)⟩], true⟩

/-- The fixture state stored by the second call: equal raw scores give a
zero standard deviation, so every stored score is NaN. -/
def sA2 : FdrState :=
  ⟨[⟨"B", gwOnes, .nan⟩, ⟨"A", gwOnes, .nan⟩], true⟩

/-- The goalkeeper row returned by the first call. -/
noncomputable def gkOutA : GkRow :=
  { gkRowA with
    xPts := some (2 : ℝ)
    fdrV := some (.fin (9 / 2))
    value := some (.fin (60 : ℝ)) }

/-- The goalkeeper row returned by the second call: the FDR cell has become
NaN. -/
noncomputable def gkOutA2 : GkRow :=
  { gkRowA with
    xPts := some (2 : ℝ)
    fdrV := some .nan
    value := some .nan }

theorem gkOutA_xpts : gkXpts 0 gkOutA = 2 := by
  simp [gkXpts, gkOutA, gkRowA]

/-- C4 (counterexample): on a table whose team `"A"` has a three-decimal
rating `1.002`, the first `get_asset_value_gk` call stores the rating back
rounded to `1`; the second call then sees two teams with identical ratings,
gets a zero standard deviation and stores NaN everywhere, so the goalkeeper
for team `"A"` comes back with FDR cell `4.5` from the first call but NaN
from the second — computing the assets twice is not idempotent. -/
theorem c4_counterexample :
    ∃ (out1 : List GkRow) (A1 : AssetValueModel) (out2 : List GkRow) (A2 : AssetValueModel),
      getAssetValueGk ⟨[gkRowA], ⟨[⟨"A", gwBump1002, .nan⟩, ⟨"B", gwOnes, .nan⟩], false⟩,
          csZero⟩ 1 0 0 = .ok (out1, A1) ∧
      getAssetValueGk A1 1 0 0 = .ok (out2, A2) ∧
      out1 ≠ out2 := by
  have hs1 := getFdrValue_pair_gt "A" "B" gwBump1002 gwOnes .nan .nan false
    (by simp [gwBump1002]) (by simp [gwOnes]) bump1002_score_gt
  rw [map_round2Q_gwOnes, map_round2Q_gwBump1002, round2R_five_five, round2R_four_five] at hs1
  have hs1' : getFdrValue ⟨[⟨"A", gwBump1002, .nan⟩, ⟨"B", gwOnes, .nan⟩], false⟩ 1 0 0
      = .ok sA1 := hs1
  have hlookA : getFdrValueByTeam sA1 "A" = .ok (.fin (9 / 2)) := by
    rw [sA1, getFdrValueByTeam]
    simp [List.find?]
  have hAv1 : avGetFdrValue ⟨[⟨"A", gwBump1002, .nan⟩, ⟨"B", gwOnes, .nan⟩], false⟩ 1 0 0 "A"
      = .ok (.fin (9 / 2), sA1) := by
    rw [avGetFdrValue_eq, hs1', bindM_ok_left, hlookA, bindM_ok_left]
  have hloop1 : gkLoop csZero ⟨[⟨"A", gwBump1002, .nan⟩, ⟨"B", gwOnes, .nan⟩], false⟩
        1 0 0 [gkRowA]
      = .ok ([((2 : ℝ), .fin (9 / 2), .fin (60 : ℝ))], csZero.train_model, sA1) := by
    rw [gkLoop_cons, show gkRowA.team = "A" from rfl, csZero_predict, bindM_ok_left, hAv1,
      bindM_ok_left, gkLoop_nil, bindM_ok_left]
    simp only [gkRowA_xpts, gkRowA_value]
  have h1 : getAssetValueGk ⟨[gkRowA], ⟨[⟨"A", gwBump1002, .nan⟩, ⟨"B", gwOnes, .nan⟩],
        false⟩, csZero⟩ 1 0 0
      = .ok ([gkOutA], ⟨[gkOutA], sA1, csZero.train_model⟩) := by
    rw [getAssetValueGk_eq]
    simp only [hloop1, bindM_ok_left, updateDf_singleton]
    simp [gkOutA]
  have hs2 := getFdrValue_pair_eq_scores "B" "A" gwOnes gwOnes (.fin (11 / 2)) (.fin (9 / 2))
    true (by simp [gwOnes]) (by simp [gwOnes]) rfl
  rw [map_round2Q_gwOnes] at hs2
  have hs2' : getFdrValue sA1 1 0 0 = .ok sA2 := hs2
  have hlookA2 : getFdrValueByTeam sA2 "A" = .ok .nan := by
    rw [sA2, getFdrValueByTeam]
    simp [List.find?]
  have hAv2 : avGetFdrValue sA1 1 0 0 "A" = .ok (.nan, sA2) := by
    rw [avGetFdrValue_eq, hs2', bindM_ok_left, hlookA2, bindM_ok_left]
  have hloop2 : gkLoop csZero.train_model sA1 1 0 0 [gkOutA]
      = .ok ([((2 : ℝ), .nan, .nan)], csZero.train_model, sA2) := by
    rw [gkLoop_cons, show gkOutA.team = "A" from rfl, csZero_trained_predict, bindM_ok_left,
      hAv2, bindM_ok_left, gkLoop_nil, bindM_ok_left]
    simp only [gkOutA_xpts, npAssetValue_nan]
  have h2 : getAssetValueGk ⟨[gkOutA], sA1, csZero.train_model⟩ 1 0 0
      = .ok ([gkOutA2], ⟨[gkOutA2], sA2, csZero.train_model⟩) := by
    rw [getAssetValueGk_eq]
    simp only [hloop2, bindM_ok_left, updateDf_singleton]
    simp [gkOutA2, gkOutA]
  refine ⟨[gkOutA], ⟨[gkOutA], sA1, csZero.train_model⟩,
    [gkOutA2], ⟨[gkOutA2], sA2, csZero.train_model⟩, h1, h2, ?_⟩
  simp [gkOutA, gkOutA2]

/-- C4 witness: the amended idempotence theorem applied to a model with no
goalkeepers and a one-team fixture table whose single rating `1` is fixed by
two-decimal rounding. -/
theorem c4_idempotent_when_ratings_2dp_witness :
    getAssetValueGk ⟨[], ⟨[⟨"A", [1], .nan⟩], false⟩, csZero⟩ 1 0 0
      = .ok ([], ⟨[], ⟨[⟨"A", [1], .nan⟩], false⟩, csZero⟩) := by
  refine c4_idempotent_when_ratings_2dp ⟨[], ⟨[⟨"A", [1], .nan⟩], false⟩, csZero⟩ 1 0 0
    ?_ [] ⟨[], ⟨[⟨"A", [1], .nan⟩], false⟩, csZero⟩ ?_
  · intro r hr q hq
    have hr1 : r ∈ [(⟨"A", [1], .nan⟩ : FdrRow)] := hr
    rw [List.mem_singleton] at hr1
    subst hr1
    have hq1 : q ∈ [(1 : ℚ)] := hq
    rw [List.mem_singleton] at hq1
    rw [hq1]
    exact round2Q_one
  · rfl

end FPL
